import Mathlib

/-! Verification of the HotSpot trace-level thermal-simulator driver.

This file gives a shallow embedding of the driver code in `src/hotspot.c`
(together with the constants of `src/util.h`) and proves properties of it:
the voltage-vector parsing, the memory-mapped checkpoint store (load, save,
flush), the driver's control flow (initialization, header emission,
checkpoint handling, configuration checks), and the per-row trace-processing
loop (permutation of power columns into floorplan order, emission of the
temperature trace, output formatting).

Machine integers are modelled as `Int`/`Nat` (no value in the modelled code
approaches an overflow boundary), C doubles as `Rat` wherever only their
movement matters (the solver `compute_temp` is outside this repository slice
and is treated as an abstract state-transition function), files as lists,
and fallible operations as `Option`/`Except` with explicit success flags for
the C library calls (`open`, `mmap`, `fopen`, `msync`). -/

/-- Magic number of the checkpoint file (`util.h`, `MAGIC_MMAP_FILE`). -/
def MAGIC_MMAP_FILE : Int := 0x48504D44

/-- Fixed checkpoint filename (`util.h`, `TRANS_TEMP_FILE`). -/
def TRANS_TEMP_FILE : String := "last_trans_temp_mmap.bin"

/-- Sentinel used for an unspecified file (`util.h`, `NULLFILE`). -/
def NULLFILE : String := "(null)"

/-! ## Voltage-vector parsing (`main`, hotspot.c lines 588-595) -/

/-- Value of the C expression `c - '0'` on a character, as an int. -/
def charDigitVal (c : Char) : Int := (c.toNat : Int) - 48

/-- The voltage-vector parsing loop of `main` (hotspot.c lines 589-595):
`for (i = 0; i < length_v; i += 4) volt[j++] = 10*(s[i]-'0') + (s[i+2]-'0');`.
The successive stores into `volt` are modelled as the produced list. `fuel`
bounds the number of iterations so the recursion is structural; it is
instantiated with the string length, which always suffices since `i`
advances by 4 each iteration. -/
def voltParseGo (s : List Char) : Nat → Nat → List Int
  | 0, _ => []
  | fuel + 1, i =>
    if i < s.length then
      (10 * charDigitVal (s.getD i ' ') + charDigitVal (s.getD (i + 2) ' '))
        :: voltParseGo s fuel (i + 4)
    else []

/-- Size of the global `volt_vector` buffer: `char volt_vector[385]`
(util.h line 195). Its adjoining comment says `For 128 channels`, but 128
comma-separated `x.y` entries need 512 bytes: `385 = 3*128 + 1` counts the
three characters of each entry and the terminating NUL but not the 127
separating commas. -/
def VOLT_VECTOR_SIZE : Nat := 385

/-- Whether a `-v` argument can be stored in `volt_vector` at all: the
`sscanf("%s", volt_vector)` of hotspot.c line 265 copies the argument and a
terminating NUL into the 385-byte buffer, and any longer argument overflows
it (undefined behavior in the C program, modelled as storage failure). -/
def fitsVoltVector (s : List Char) : Bool :=
  decide (s.length + 1 ≤ VOLT_VECTOR_SIZE)

/-- The `-v` voltage vector end to end: the argument is stored into the
`volt_vector[385]` buffer (hotspot.c line 265) — `none` when it does not
fit — and the loop of hotspot.c lines 589-595 then parses the stored C
string into `volt[0], volt[1], …` (modelled as its list of characters;
`strlen` is the list length). -/
def parseVoltVector (s : List Char) : Option (List Int) :=
  if fitsVoltVector s then some (voltParseGo s s.length 0) else none

/-- The loop result does not depend on the fuel, provided the fuel covers the
remaining length (each iteration advances `i` by 4 ≥ 1). -/
theorem voltParseGo_congr (s : List Char) :
    ∀ f g i, s.length - i ≤ f → s.length - i ≤ g → voltParseGo s f i = voltParseGo s g i := by
  intro f
  induction f with
  | zero =>
    intro g i hf _
    have hi : ¬ i < s.length := by omega
    cases g with
    | zero => rfl
    | succ g => simp [voltParseGo, hi]
  | succ f ih =>
    intro g i hf hg
    cases g with
    | zero =>
      have hi : ¬ i < s.length := by omega
      simp [voltParseGo, hi]
    | succ g =>
      by_cases hi : i < s.length
      · simp only [voltParseGo, if_pos hi]
        have := ih g (i + 4) (by omega) (by omega)
        rw [this]
      · simp [voltParseGo, hi]

/-- Unfolding of one iteration of the parsing loop. -/
theorem voltParseGo_cons_step (s : List Char) (f i : Nat) (h : i < s.length) :
    voltParseGo s (f + 1) i
      = (10 * charDigitVal (s.getD i ' ') + charDigitVal (s.getD (i + 2) ' '))
        :: voltParseGo s f (i + 4) := by
  simp [voltParseGo, h]

/-- Dropping the first four characters shifts the loop start by four. -/
theorem voltParseGo_drop4 (s : List Char) :
    ∀ f j, voltParseGo (s.drop 4) f j = voltParseGo s f (j + 4) := by
  intro f
  induction f with
  | zero => intro j; rfl
  | succ f ih =>
    intro j
    have hlen : (s.drop 4).length = s.length - 4 := by simp
    by_cases hj : j < (s.drop 4).length
    · have hj4 : j + 4 < s.length := by omega
      have h1 : (s.drop 4).getD j ' ' = s.getD (4 + j) ' ' := by
        simp [List.getD_eq_getElem?_getD, List.getElem?_drop]
      have h2 : (s.drop 4).getD (j + 2) ' ' = s.getD (4 + (j + 2)) ' ' := by
        simp [List.getD_eq_getElem?_getD, List.getElem?_drop]
      rw [voltParseGo_cons_step _ _ _ hj, voltParseGo_cons_step _ _ _ hj4, h1, h2, ih]
      have e1 : 4 + j = j + 4 := by omega
      have e2 : 4 + (j + 2) = j + 4 + 2 := by omega
      rw [e1, e2]
    · rw [hlen] at hj
      have hj4 : ¬ j + 4 < s.length := by omega
      have hj' : ¬ j < (s.drop 4).length := by rw [hlen]; omega
      simp only [voltParseGo, if_neg hj', if_neg hj4]

/-- A well-formed comma-separated voltage vector: each entry `(x, y)` is
rendered as the three characters `x.y`, entries separated by commas (the
format `x.y,x.y,…` of the `-v` option). -/
def renderVoltVector : List (Char × Char) → List Char
  | [] => []
  | [p] => [p.1, '.', p.2]
  | p :: rest => p.1 :: '.' :: p.2 :: ',' :: renderVoltVector rest

/-- On a well-formed comma-separated voltage vector, the parsing loop produces
exactly the list of values `10*x + y` of its entries, in order. -/
theorem voltParseGo_render (es : List (Char × Char)) :
    voltParseGo (renderVoltVector es) (renderVoltVector es).length 0
      = es.map (fun p => 10 * charDigitVal p.1 + charDigitVal p.2) := by
  induction es with
  | nil => rfl
  | cons p rest ih =>
    cases rest with
    | nil =>
      simp only [renderVoltVector]
      norm_num [voltParseGo]
    | cons q rest' =>
      have hrender : renderVoltVector (p :: q :: rest')
          = p.1 :: '.' :: p.2 :: ',' :: renderVoltVector (q :: rest') := rfl
      set t := renderVoltVector (q :: rest') with ht
      have hlen : (renderVoltVector (p :: q :: rest')).length = t.length + 4 := by
        rw [hrender]; simp
      simp only [hrender] at *
      rw [hlen]
      rw [voltParseGo_cons_step (p.1 :: '.' :: p.2 :: ',' :: t) (t.length + 3) 0 (by simp)]
      have hdrop : (p.1 :: '.' :: p.2 :: ',' :: t).drop 4 = t := rfl
      have hshift := voltParseGo_drop4 (p.1 :: '.' :: p.2 :: ',' :: t) (t.length + 3) 0
      rw [hdrop] at hshift
      have hcong : voltParseGo t (t.length + 3) 0 = voltParseGo t t.length 0 :=
        voltParseGo_congr t (t.length + 3) t.length 0 (by omega) (by omega)
      have hzero4 : (0:Nat) + 4 = 4 := rfl
      rw [hzero4] at hshift
      rw [← hshift, hcong]
      simp only [List.map_cons]
      rw [ih]
      simp [List.getD]

/-- Length of the rendered vector: three characters per entry plus the
separating commas. -/
theorem renderVoltVector_length (es : List (Char × Char)) :
    (renderVoltVector es).length = if es.length = 0 then 0 else 4 * es.length - 1 := by
  induction es with
  | nil => rfl
  | cons p rest ih =>
    cases rest with
    | nil => rfl
    | cons q rest' =>
      have hr : renderVoltVector (p :: q :: rest')
          = p.1 :: '.' :: p.2 :: ',' :: renderVoltVector (q :: rest') := rfl
      rw [hr]
      simp only [List.length_cons]
      rw [ih]
      simp only [List.length_cons]
      rw [if_neg (by omega : ¬ rest'.length + 1 = 0),
        if_neg (by omega : ¬ rest'.length + 1 + 1 = 0)]
      omega

/-! ## Checkpoint store (hotspot.c lines 94-200) -/

/-- A checkpoint file: the six-int header followed by the doubles payload
(the file bytes viewed at the types the code accesses them at: `int` at byte
offsets 0,4,…,20 and `double` from byte offset 24 on). -/
structure CkptFile where
  header : List Int
  payload : List Rat
deriving DecidableEq, Repr

/-- Observable events of the checkpoint operations (the syscalls they make). -/
inductive CkptEv where
  | openFile
  | mapFile
  | unmapFile
  | setHeaderIdx (n : Int)
  | msyncFailMsg
deriving DecidableEq, Repr

/-- The views into the mapping exposed by a successful load: `model->last_trans`
(`cuboid` and `extra`) and `model->last_temp` (hotspot.c lines 126-144). A read
beyond the payload returns 0; the C code never performs one on a file written
by `save_last_trans_temp_mmap`. -/
structure CkptViews where
  cuboid : Nat → Nat → Nat → Rat
  extra : Nat → Rat
  last_temp : Nat → Rat

/-- `load_last_trans_temp_mmap` (hotspot.c lines 94-146) for a model with grid
dimensions `(nLayers, rows, cols)` and global trace number `tn`: opens and maps
the file read/write, validates magic and stored trace index (fatal on mismatch,
after `munmap`), then the stored grid dimensions against the model's (`exit(1)`
on mismatch, after `munmap`), and on success exposes the three views into the
mapping; the view index arithmetic uses the stored dimensions, which at that
point equal the model's. `openOk`/`mmapOk` inject failures of the
`open`/`mmap` calls (both fatal). Returns the emitted events, the file as left
on disk, and the result (`.error` = process abort). -/
def load_last_trans_temp_mmap (nLayers rows cols : Nat) (tn : Int)
    (openOk mmapOk : Bool) (f : CkptFile) :
    List CkptEv × CkptFile × Except String CkptViews :=
  if !openOk then ([], f, .error "open")
  else if !mmapOk then ([.openFile], f, .error "mmap failed")
  else if f.header.getD 0 0 ≠ MAGIC_MMAP_FILE ∨ f.header.getD 1 0 ≠ tn - 1 then
    ([.openFile, .mapFile, .unmapFile], f, .error "Invalid file header")
  else if f.header.getD 2 0 ≠ (nLayers : Int) ∨ f.header.getD 3 0 ≠ (rows : Int)
      ∨ f.header.getD 4 0 ≠ (cols : Int) then
    ([.openFile, .mapFile, .unmapFile], f, .error "Grid mismatch")
  else
    ([.openFile, .mapFile], f, .ok
      { cuboid := fun l r c => f.payload.getD ((l * rows + r) * cols + c) 0
        extra := fun e => f.payload.getD (nLayers * rows * cols + e) 0
        last_temp := fun i =>
          f.payload.getD (nLayers * rows * cols + (f.header.getD 5 0).toNat + i) 0 })

/-- The grid-model state serialized by `save_last_trans_temp_mmap`. The macros
`EXTRA` and `EXTRA_SEC` (defined in temperature.h, outside this repository
slice) are carried as explicit constants. -/
structure GridModelCkpt where
  n_layers : Nat
  rows : Nat
  cols : Nat
  total_n_blocks : Nat
  model_secondary : Bool
  cuboid : Nat → Nat → Nat → Rat
  extraVals : Nat → Rat
  last_temp : Nat → Rat

/-- Number of `last_temp` doubles written by the save: `total_n_blocks + EXTRA`,
plus `EXTRA_SEC` exactly when `model_secondary` (hotspot.c lines 176-181). -/
def saveTotalNodes (EXTRA EXTRA_SEC : Nat) (m : GridModelCkpt) : Nat :=
  if m.model_secondary then m.total_n_blocks + EXTRA + EXTRA_SEC
  else m.total_n_blocks + EXTRA

/-- `save_last_trans_temp_mmap` (hotspot.c lines 148-185): creates/truncates the
file (`fopen(filename, "wb")`, so the previous contents `old` never reach the
result), writes the six-int header `{MAGIC_MMAP_FILE, trace_num, n_layers,
rows, cols, num_extra}`, then the cuboid (outer loop over layers, inner loop
over rows, each `fwrite` emitting `cols` doubles), then `num_extra` extra
doubles, then the `last_temp` doubles. `fopenOk` injects an `fopen` failure,
which the code turns into `exit(1)`. -/
def save_last_trans_temp_mmap (EXTRA EXTRA_SEC : Nat) (tn : Int)
    (m : GridModelCkpt) (num_extra : Nat) (fopenOk : Bool) (old : CkptFile) :
    Except String CkptFile :=
  if !fopenOk then .error "fopen"
  else .ok
    { header := [MAGIC_MMAP_FILE, tn, m.n_layers, m.rows, m.cols, num_extra]
      payload :=
        ((List.range m.n_layers).flatMap fun l =>
          (List.range m.rows).flatMap fun r =>
            (List.range m.cols).map fun c => m.cuboid l r c)
        ++ (List.range num_extra).map m.extraVals
        ++ (List.range (saveTotalNodes EXTRA EXTRA_SEC m)).map m.last_temp }

/-- The checkpoint layout as documented in the specification (§3): the six-int
header `[magic, trace index, n_layers, rows, cols, num_extra]`, then the
`n_layers·rows·cols` cuboid doubles in layer-major then row-major order — the
double at flat position `i` belongs to layer `i / (rows·cols)`, row
`(i % (rows·cols)) / cols`, column `i % cols` — then the `num_extra` extra
doubles, then `totalNodes` doubles of `T_last`. -/
def ckptSpecLayout (tn : Int) (m : GridModelCkpt) (num_extra totalNodes : Nat) : CkptFile :=
  { header := [MAGIC_MMAP_FILE, tn, m.n_layers, m.rows, m.cols, num_extra]
    payload :=
      (List.range (m.n_layers * (m.rows * m.cols))).map
        (fun i => m.cuboid (i / (m.rows * m.cols)) (i % (m.rows * m.cols) / m.cols) (i % m.cols))
      ++ (List.range num_extra).map m.extraVals
      ++ (List.range totalNodes).map m.last_temp }

/-- `flush_updated_last_trans_temp` (hotspot.c lines 187-195): stores the global
trace number into header word 1 of the mapping and calls `msync(…, MS_SYNC)`.
A failing `msync` only prints `perror("msync")`; the function returns normally
either way — there is no abort path. `msyncOk` injects the failure. Returns the
file after the operation, the events, and the fatal outcome (always `none`). -/
def flush_updated_last_trans_temp (f : CkptFile) (tn : Int) (msyncOk : Bool) :
    CkptFile × List CkptEv × Option String :=
  let f2 : CkptFile := { f with header := f.header.set 1 tn }
  if msyncOk then (f2, [.setHeaderIdx tn], none)
  else (f2, [.setHeaderIdx tn, .msyncFailMsg], none)

/-- `unload_last_trans_temp` (hotspot.c lines 197-200): unmaps, nothing else. -/
def unload_last_trans_temp (f : CkptFile) : CkptFile × List CkptEv :=
  (f, [.unmapFile])

/-- Flattening a map over `range a × range b` is a single map over
`range (a·b)` with div/mod index decomposition. -/
theorem flatMap_range_eq_range_mul {α : Type} (a b : Nat) (g : Nat → Nat → α) :
    ((List.range a).flatMap fun i => (List.range b).map (g i))
      = (List.range (a * b)).map (fun i => g (i / b) (i % b)) := by
  rcases Nat.eq_zero_or_pos b with hb | hb
  · subst hb; simp
  induction a with
  | zero => simp
  | succ a ih =>
    rw [List.range_succ, Nat.succ_mul, List.range_add]
    rw [List.flatMap_append, List.map_append, ih]
    congr 1
    simp only [List.flatMap_cons, List.flatMap_nil, List.append_nil, List.map_map]
    apply List.map_congr_left
    intro i hi
    simp only [List.mem_range] at hi
    have hdiv : (a * b + i) / b = a + i / b := by
      rw [Nat.mul_comm a b, Nat.mul_add_div hb]
    have hmod : (a * b + i) % b = i % b := by
      rw [Nat.add_comm, Nat.add_mul_mod_self_right]
    simp [Function.comp, hdiv, hmod, Nat.div_eq_of_lt hi, Nat.mod_eq_of_lt hi]

/-- The save result, spelled as the documented layout. -/
theorem save_eq_ckptSpecLayout (EXTRA EXTRA_SEC : Nat) (tn : Int)
    (m : GridModelCkpt) (num_extra : Nat) (old : CkptFile) :
    save_last_trans_temp_mmap EXTRA EXTRA_SEC tn m num_extra true old
      = .ok (ckptSpecLayout tn m num_extra (saveTotalNodes EXTRA EXTRA_SEC m)) := by
  have hcub : ((List.range m.n_layers).flatMap fun l =>
        (List.range m.rows).flatMap fun r => (List.range m.cols).map fun c => m.cuboid l r c)
      = (List.range (m.n_layers * (m.rows * m.cols))).map
          (fun i => m.cuboid (i / (m.rows * m.cols)) (i % (m.rows * m.cols) / m.cols)
            (i % m.cols)) := by
    calc ((List.range m.n_layers).flatMap fun l =>
            (List.range m.rows).flatMap fun r => (List.range m.cols).map fun c => m.cuboid l r c)
        = (List.range m.n_layers).flatMap fun l =>
            (List.range (m.rows * m.cols)).map
              (fun j => m.cuboid l (j / m.cols) (j % m.cols)) := by
          apply List.flatMap_congr
          intro l _
          exact flatMap_range_eq_range_mul m.rows m.cols (fun r c => m.cuboid l r c)
      _ = (List.range (m.n_layers * (m.rows * m.cols))).map
            (fun i => m.cuboid (i / (m.rows * m.cols)) (i % (m.rows * m.cols) / m.cols)
              (i % (m.rows * m.cols) % m.cols)) :=
          flatMap_range_eq_range_mul m.n_layers (m.rows * m.cols) _
      _ = (List.range (m.n_layers * (m.rows * m.cols))).map
            (fun i => m.cuboid (i / (m.rows * m.cols)) (i % (m.rows * m.cols) / m.cols)
              (i % m.cols)) := by
          apply List.map_congr_left
          intro i _
          rw [Nat.mod_mod_of_dvd i (Dvd.intro_left m.rows rfl)]
  simp only [save_last_trans_temp_mmap, ckptSpecLayout, Bool.not_true, Bool.false_eq_true,
    if_false, hcub]

/-- C3: the checkpoint save writes, from scratch (its result does not depend
on the previous file contents), a file with exactly the documented layout —
six-int header `[magic 0x48504D44, current trace index, n_layers, rows, cols,
num_extra]`, then `n_layers·rows·cols` cuboid doubles in layer-major then
row-major order, then `num_extra` extra doubles, then `T_last` of
`total_n_blocks + EXTRA` (plus `EXTRA_SEC` if and only if `model_secondary`)
doubles — and the fixed filename the driver saves to is
`last_trans_temp_mmap.bin`. -/
theorem hotspot_claim_c3 (EXTRA EXTRA_SEC : Nat) (tn : Int)
    (m : GridModelCkpt) (num_extra : Nat) (old old2 : CkptFile) :
    save_last_trans_temp_mmap EXTRA EXTRA_SEC tn m num_extra true old
        = .ok (ckptSpecLayout tn m num_extra
            (if m.model_secondary then m.total_n_blocks + EXTRA + EXTRA_SEC
             else m.total_n_blocks + EXTRA))
      ∧ save_last_trans_temp_mmap EXTRA EXTRA_SEC tn m num_extra true old
        = save_last_trans_temp_mmap EXTRA EXTRA_SEC tn m num_extra true old2
      ∧ TRANS_TEMP_FILE = "last_trans_temp_mmap.bin"
      ∧ MAGIC_MMAP_FILE = 0x48504D44 :=
  ⟨save_eq_ckptSpecLayout EXTRA EXTRA_SEC tn m num_extra old,
    (save_eq_ckptSpecLayout EXTRA EXTRA_SEC tn m num_extra old).trans
      (save_eq_ckptSpecLayout EXTRA EXTRA_SEC tn m num_extra old2).symm,
    rfl, rfl⟩

/-- Evaluation of the load on a magic/trace-index mismatch. -/
theorem load_eval_bad_header (nL r c : Nat) (tn : Int) (f : CkptFile)
    (h1 : f.header.getD 0 0 ≠ MAGIC_MMAP_FILE ∨ f.header.getD 1 0 ≠ tn - 1) :
    load_last_trans_temp_mmap nL r c tn true true f
      = ([.openFile, .mapFile, .unmapFile], f, .error "Invalid file header") := by
  simp only [load_last_trans_temp_mmap, Bool.not_true, Bool.false_eq_true, if_false, if_pos h1]

/-- Evaluation of the load on a grid-dimension mismatch. -/
theorem load_eval_bad_grid (nL r c : Nat) (tn : Int) (f : CkptFile)
    (ha : f.header.getD 0 0 = MAGIC_MMAP_FILE) (hb : f.header.getD 1 0 = tn - 1)
    (h2 : f.header.getD 2 0 ≠ (nL : Int) ∨ f.header.getD 3 0 ≠ (r : Int)
      ∨ f.header.getD 4 0 ≠ (c : Int)) :
    load_last_trans_temp_mmap nL r c tn true true f
      = ([.openFile, .mapFile, .unmapFile], f, .error "Grid mismatch") := by
  have h1 : ¬ (f.header.getD 0 0 ≠ MAGIC_MMAP_FILE ∨ f.header.getD 1 0 ≠ tn - 1) := by
    push_neg
    exact ⟨ha, hb⟩
  simp only [load_last_trans_temp_mmap, Bool.not_true, Bool.false_eq_true, if_false,
    if_neg h1, if_pos h2]

/-- Evaluation of the load when every header check passes. -/
theorem load_eval_ok (nL r c : Nat) (tn : Int) (f : CkptFile)
    (ha : f.header.getD 0 0 = MAGIC_MMAP_FILE) (hb : f.header.getD 1 0 = tn - 1)
    (hc : f.header.getD 2 0 = (nL : Int)) (hd : f.header.getD 3 0 = (r : Int))
    (he : f.header.getD 4 0 = (c : Int)) :
    load_last_trans_temp_mmap nL r c tn true true f
      = ([.openFile, .mapFile], f, .ok
          { cuboid := fun l rr cc => f.payload.getD ((l * r + rr) * c + cc) 0
            extra := fun e => f.payload.getD (nL * r * c + e) 0
            last_temp := fun i =>
              f.payload.getD (nL * r * c + (f.header.getD 5 0).toNat + i) 0 }) := by
  have h1 : ¬ (f.header.getD 0 0 ≠ MAGIC_MMAP_FILE ∨ f.header.getD 1 0 ≠ tn - 1) := by
    push_neg
    exact ⟨ha, hb⟩
  have h2 : ¬ (f.header.getD 2 0 ≠ (nL : Int) ∨ f.header.getD 3 0 ≠ (r : Int)
      ∨ f.header.getD 4 0 ≠ (c : Int)) := by
    push_neg
    exact ⟨hc, hd, he⟩
  simp only [load_last_trans_temp_mmap, Bool.not_true, Bool.false_eq_true, if_false,
    if_neg h1, if_neg h2]

/-- C2: loading the checkpoint for trace chunk `tn > 0` (with the `open` and
`mmap` calls succeeding) succeeds exactly when the stored magic is
`MAGIC_MMAP_FILE`, the stored trace index is `tn − 1`, and the stored
`(n_layers, rows, cols)` equal the model's; any mismatch yields a fatal abort
after unmapping; the file is never written; and on success the `cuboid`,
`extra` and `last_temp` views read the payload at the documented offsets. -/
theorem hotspot_claim_c2 (nLayers rows cols : Nat) (tn : Int) (f : CkptFile)
    (htn : 0 < tn) :
    ((∃ v, (load_last_trans_temp_mmap nLayers rows cols tn true true f).2.2 = .ok v)
        ↔ f.header.getD 0 0 = MAGIC_MMAP_FILE ∧ f.header.getD 1 0 = tn - 1
            ∧ f.header.getD 2 0 = (nLayers : Int) ∧ f.header.getD 3 0 = (rows : Int)
            ∧ f.header.getD 4 0 = (cols : Int))
      ∧ (load_last_trans_temp_mmap nLayers rows cols tn true true f).2.1 = f
      ∧ (¬ (f.header.getD 0 0 = MAGIC_MMAP_FILE ∧ f.header.getD 1 0 = tn - 1
            ∧ f.header.getD 2 0 = (nLayers : Int) ∧ f.header.getD 3 0 = (rows : Int)
            ∧ f.header.getD 4 0 = (cols : Int)) →
          (∃ msg, (load_last_trans_temp_mmap nLayers rows cols tn true true f).2.2
              = .error msg)
            ∧ CkptEv.unmapFile ∈ (load_last_trans_temp_mmap nLayers rows cols tn true true f).1)
      ∧ (∀ v, (load_last_trans_temp_mmap nLayers rows cols tn true true f).2.2 = .ok v →
          (∀ l r c, v.cuboid l r c = f.payload.getD ((l * rows + r) * cols + c) 0)
            ∧ (∀ e, v.extra e = f.payload.getD (nLayers * rows * cols + e) 0)
            ∧ (∀ i, v.last_temp i
                = f.payload.getD (nLayers * rows * cols + (f.header.getD 5 0).toNat + i) 0)) := by
  by_cases h1 : f.header.getD 0 0 ≠ MAGIC_MMAP_FILE ∨ f.header.getD 1 0 ≠ tn - 1
  · rw [load_eval_bad_header nLayers rows cols tn f h1]
    refine ⟨?_, rfl, ?_, ?_⟩
    · constructor
      · rintro ⟨v, hv⟩
        exact absurd hv (by simp)
      · rintro ⟨ha, hb, -⟩
        rcases h1 with h | h <;> exact absurd (by assumption) h
    · intro _
      exact ⟨⟨"Invalid file header", rfl⟩, by simp⟩
    · intro v hv
      exact absurd hv (by simp)
  · push_neg at h1
    by_cases h2 : f.header.getD 2 0 ≠ (nLayers : Int) ∨ f.header.getD 3 0 ≠ (rows : Int)
        ∨ f.header.getD 4 0 ≠ (cols : Int)
    · rw [load_eval_bad_grid nLayers rows cols tn f h1.1 h1.2 h2]
      refine ⟨?_, rfl, ?_, ?_⟩
      · constructor
        · rintro ⟨v, hv⟩
          exact absurd hv (by simp)
        · rintro ⟨-, -, ha, hb, hc⟩
          rcases h2 with h | h | h <;> exact absurd (by assumption) h
      · intro _
        exact ⟨⟨"Grid mismatch", rfl⟩, by simp⟩
      · intro v hv
        exact absurd hv (by simp)
    · push_neg at h2
      rw [load_eval_ok nLayers rows cols tn f h1.1 h1.2 h2.1 h2.2.1 h2.2.2]
      refine ⟨?_, rfl, ?_, ?_⟩
      · constructor
        · intro _
          exact ⟨h1.1, h1.2, h2.1, h2.2.1, h2.2.2⟩
        · intro _
          exact ⟨_, rfl⟩
      · intro hcon
        exact absurd ⟨h1.1, h1.2, h2.1, h2.2.1, h2.2.2⟩ hcon
      · intro v hv
        cases hv
        exact ⟨fun _ _ _ => rfl, fun _ => rfl, fun _ => rfl⟩

/-- Witness for C2 at a concrete model and file: trace chunk 1, a 1×2×2 grid,
and a checkpoint whose header matches. -/
theorem hotspot_claim_c2_witness :
    (0:Int) < 1 ∧
    (((∃ v, (load_last_trans_temp_mmap 1 2 2 1 true true
          ⟨[MAGIC_MMAP_FILE, 0, 1, 2, 2, 0], [1, 2, 3, 4, 300]⟩).2.2 = .ok v)
        ↔ ([MAGIC_MMAP_FILE, 0, 1, 2, 2, 0] : List Int).getD 0 0 = MAGIC_MMAP_FILE
            ∧ ([MAGIC_MMAP_FILE, 0, 1, 2, 2, 0] : List Int).getD 1 0 = 1 - 1
            ∧ ([MAGIC_MMAP_FILE, 0, 1, 2, 2, 0] : List Int).getD 2 0 = ((1:Nat) : Int)
            ∧ ([MAGIC_MMAP_FILE, 0, 1, 2, 2, 0] : List Int).getD 3 0 = ((2:Nat) : Int)
            ∧ ([MAGIC_MMAP_FILE, 0, 1, 2, 2, 0] : List Int).getD 4 0 = ((2:Nat) : Int))
      ∧ (load_last_trans_temp_mmap 1 2 2 1 true true
          ⟨[MAGIC_MMAP_FILE, 0, 1, 2, 2, 0], [1, 2, 3, 4, 300]⟩).2.1
          = ⟨[MAGIC_MMAP_FILE, 0, 1, 2, 2, 0], [1, 2, 3, 4, 300]⟩
      ∧ (¬ (([MAGIC_MMAP_FILE, 0, 1, 2, 2, 0] : List Int).getD 0 0 = MAGIC_MMAP_FILE
            ∧ ([MAGIC_MMAP_FILE, 0, 1, 2, 2, 0] : List Int).getD 1 0 = 1 - 1
            ∧ ([MAGIC_MMAP_FILE, 0, 1, 2, 2, 0] : List Int).getD 2 0 = ((1:Nat) : Int)
            ∧ ([MAGIC_MMAP_FILE, 0, 1, 2, 2, 0] : List Int).getD 3 0 = ((2:Nat) : Int)
            ∧ ([MAGIC_MMAP_FILE, 0, 1, 2, 2, 0] : List Int).getD 4 0 = ((2:Nat) : Int)) →
          (∃ msg, (load_last_trans_temp_mmap 1 2 2 1 true true
              ⟨[MAGIC_MMAP_FILE, 0, 1, 2, 2, 0], [1, 2, 3, 4, 300]⟩).2.2 = .error msg)
            ∧ CkptEv.unmapFile ∈ (load_last_trans_temp_mmap 1 2 2 1 true true
              ⟨[MAGIC_MMAP_FILE, 0, 1, 2, 2, 0], [1, 2, 3, 4, 300]⟩).1)
      ∧ (∀ v, (load_last_trans_temp_mmap 1 2 2 1 true true
            ⟨[MAGIC_MMAP_FILE, 0, 1, 2, 2, 0], [1, 2, 3, 4, 300]⟩).2.2 = .ok v →
          (∀ l r c, v.cuboid l r c
              = ([1, 2, 3, 4, 300] : List Rat).getD ((l * 2 + r) * 2 + c) 0)
            ∧ (∀ e, v.extra e = ([1, 2, 3, 4, 300] : List Rat).getD (1 * 2 * 2 + e) 0)
            ∧ (∀ i, v.last_temp i = ([1, 2, 3, 4, 300] : List Rat).getD
                (1 * 2 * 2 + (([MAGIC_MMAP_FILE, 0, 1, 2, 2, 0] : List Int).getD 5 0).toNat + i) 0))) :=
  ⟨by decide, hotspot_claim_c2 1 2 2 1 ⟨[MAGIC_MMAP_FILE, 0, 1, 2, 2, 0], [1, 2, 3, 4, 300]⟩ (by decide)⟩

/-! ## Driver control flow (`main`, hotspot.c lines 536-978) -/

/-- A layer of the grid model as the driver sees it: whether it dissipates
power, and its floorplan's unit names in insertion order. -/
structure Layer where
  has_power : Bool
  units : List String
deriving DecidableEq, Repr

/-- Total number of trace columns for the grid model: the sum of `n_units`
over the power-dissipating layers (hotspot.c lines 746-749). -/
def totalUnits (layers : List Layer) : Nat :=
  ((layers.filter fun L => L.has_power).map fun L => L.units.length).sum

/-- The inputs and environment of one driver invocation, after command-line
and configuration parsing: the parsed configuration fields the modelled
control flow reads, the model shape, the shape of the trace file (name count
and per-row value counts), the checkpoint file on disk, the `EXTRA` and
`EXTRA_SEC` macro values (temperature.h, outside this repository slice), and
success flags for the C library calls the driver makes. -/
structure DriverInput where
  detailed_3D : String
  use_microchannels : Bool
  lcf_given : Bool
  flp_given : Bool
  model_is_grid : Bool
  grid_steady_file_given : Bool
  grid_transient_file_given : Bool
  t_outfile_given : Bool
  trace_num : Int
  init_file_given : Bool
  dtm_used : Bool
  leakage_used : Bool
  model_secondary : Bool
  natural : Bool
  layers : List Layer
  flp_n_units : Nat
  header_len : Nat
  row_lens : List Nat
  n_layers : Nat
  rows : Nat
  cols : Nat
  ckpt_file : CkptFile
  EXTRA : Nat
  EXTRA_SEC : Nat
  pin_ok : Bool
  tout_ok : Bool
  pout_ok : Bool
  stale_exists : Bool
  unlink_ok : Bool
  ckpt_open_ok : Bool
  ckpt_mmap_ok : Bool
  save_fopen_ok : Bool
  msync_ok : Bool
deriving Repr

/-- `do_transient` (hotspot.c lines 600-602): transient simulation happens
exactly when a `-o` temperature-trace output file was given. -/
def doTransient (inp : DriverInput) : Bool := inp.t_outfile_given

/-- `do_detailed_3D` (hotspot.c lines 613-620): on exactly for the string
`"on"`. Any other value — including values that are neither `"on"` nor
`"off"` — leaves it off: the fatal for invalid values is commented out in
the source. -/
def detailed3DOf (s : String) : Bool := s == "on"

/-- `n`, the expected number of trace columns (hotspot.c lines 744-751). -/
def nUnits (inp : DriverInput) : Nat :=
  if inp.model_is_grid then totalUnits inp.layers else inp.flp_n_units

/-- The global `trace_num` is declared `unsigned int` (util.h line 201), so
the parsed `-t` value — and the `-1` assigned for a standalone run
(hotspot.c line 275) — is stored reduced modulo `2^32`: the standalone run
stores `4294967295`. Every comparison of `main` reads this unsigned value:
`trace_num <= 0` (lines 727, 768, 822) holds exactly when it is `0`, and
`trace_num > 0` (lines 785, 883, 957) exactly when it is nonzero. -/
def utrace (t : Int) : Nat := (t % 4294967296).toNat

/-- Conversion of the unsigned `trace_num` value back to a C `int`, as
performed by the store `header[1] = trace_num` of the checkpoint flush
(hotspot.c line 191): values of `2^31` and above wrap to negatives. -/
def asInt32 (n : Nat) : Int :=
  if n < 2147483648 then (n : Int) else (n : Int) - 4294967296

/-- Observable events of the driver. `steadySolve` is in the vocabulary as
the steady-state solve of the original HotSpot driver; no code path emits it
(the steady-state block, hotspot.c lines 903-931, is commented out). -/
inductive Ev where
  | warnOverrideFlp
  | warnIgnoreGridSteady
  | warnIgnoreGridTransient
  | buildR
  | buildC
  | initTempFromFile (clipped : Bool)
  | initTempFromTemp
  | writeHeader
  | writePowerHeader
  | deleteStale
  | loadCkpt
  | packageUpdate
  | computeRow (first : Bool)
  | dumpGridTransient
  | emitRow
  | emitPowerRow
  | saveCkpt (filename : String) (num_extra : Nat)
  | flushCkpt (idx : Int) (synced : Bool)
  | steadySolve
  | unloadCkpt
  | fatalErr (msg : String)
deriving DecidableEq, Repr

/-- A control-flow fragment: the emitted events plus, when the fragment
aborts the process (`fatal`/`exit`), the abort message. -/
abbrev Run := List Ev × Option String

/-- A fragment that completes normally. -/
def okR (es : List Ev) : Run := (es, none)

/-- A fragment that aborts: the message is recorded and the process exits. -/
def fatR (msg : String) : Run := ([Ev.fatalErr msg], some msg)

/-- Sequencing of fragments: an abort discards everything after it. -/
def seqRun (a b : Run) : Run :=
  match a.2 with
  | none => (a.1 ++ b.1, b.2)
  | some m => (a.1, some m)

/-- Floorplan/LCF selection (hotspot.c lines 669-681). -/
def stageFlp (inp : DriverInput) : Run :=
  if inp.lcf_given then okR (if inp.flp_given then [.warnOverrideFlp] else [])
  else if inp.flp_given then okR []
  else fatR "Either LCF or FLP file must be specified"

/-- Input-combination checks after `alloc_RC_model` (hotspot.c lines
687-701). `model->grid->has_lcf` is set exactly when a layer-configuration
file was given. -/
def stageChecks (inp : DriverInput) : Run :=
  if inp.model_is_grid = false ∧ detailed3DOf inp.detailed_3D then
    fatR "-do_detailed_3D can only be used with -model_type grid"
  else if inp.model_is_grid ∧ inp.lcf_given = false ∧ detailed3DOf inp.detailed_3D then
    fatR "-do_detailed_3D can only be used in 3D mode"
  else if inp.use_microchannels
      ∧ (inp.model_is_grid = false ∨ detailed3DOf inp.detailed_3D = false) then
    fatR "-use_microchannels requires -model_type grid and do_detailed_3D on options"
  else okR
    ((if inp.model_is_grid = false ∧ inp.grid_steady_file_given then
        [.warnIgnoreGridSteady] else [])
      ++ (if inp.model_is_grid = false ∧ inp.grid_transient_file_given then
        [.warnIgnoreGridTransient] else []))

/-- Thermal-circuit build (hotspot.c lines 707-711): `populate_R_model`
always, `populate_C_model` for transient runs. -/
def stageBuild (inp : DriverInput) : Run :=
  okR ([.buildR] ++ if doTransient inp then [.buildC] else [])

/-- Initial-temperature setup for first invocations (hotspot.c lines
727-736): when the unsigned `trace_num` is `0` (the `trace_num<=0` test of
line 727 on the unsigned global, so never for the standalone `-1`) and the
run is transient, `T_last` comes from `init_file` via `read_temp` (clipped
exactly when `dtm_used`) or, without an `init_file`, from `set_temp` at
`init_temp`. -/
def stageInit (inp : DriverInput) : Run :=
  okR (if utrace inp.trace_num = 0 ∧ doTransient inp then
         (if inp.init_file_given then [.initTempFromFile inp.dtm_used] else [.initTempFromTemp])
       else [])

/-- Trace-file opens (hotspot.c lines 755-760). -/
def stageOpens (inp : DriverInput) : Run :=
  if inp.pin_ok = false then fatR "unable to open power trace input file"
  else if doTransient inp ∧ inp.tout_ok = false then
    fatR "unable to open temperature trace file for output"
  else if doTransient inp ∧ inp.leakage_used ∧ inp.pout_ok = false then
    fatR "unable to open trace file for output"
  else okR []

/-- Name-count check after `read_names` (hotspot.c lines 763-765). -/
def stageNames (inp : DriverInput) : Run :=
  if inp.header_len ≠ nUnits inp then fatR "no. of units in floorplan and trace file differ"
  else okR []

/-- Header write plus stale-checkpoint cleanup when the unsigned `trace_num`
is `0` (the `trace_num<=0` test of line 768 and the `trace_num==0` test of
line 774 both hold exactly then), and the checkpoint load when it is nonzero
(the `trace_num>0` test of line 785) — the branch a standalone `trace_num =
-1` run actually takes, with the unsigned value `4294967295` as the trace
number the load validates against (hotspot.c lines 767-788). -/
def stageHeader (inp : DriverInput) : Run :=
  if utrace inp.trace_num = 0 ∧ doTransient inp then
    seqRun (okR ([.writeHeader] ++ if inp.leakage_used then [.writePowerHeader] else []))
      (if utrace inp.trace_num = 0 then
         (if inp.stale_exists then
            (if inp.unlink_ok then okR [.deleteStale]
             else fatR "Could not delete old transient temp data file")
          else okR [])
       else okR [])
  else if utrace inp.trace_num ≠ 0 ∧ doTransient inp then
    match (load_last_trans_temp_mmap inp.n_layers inp.rows inp.cols
        ((utrace inp.trace_num : Nat) : Int)
        inp.ckpt_open_ok inp.ckpt_mmap_ok inp.ckpt_file).2.2 with
    | .error m => fatR m
    | .ok _ => okR [.loadCkpt]
  else okR []

/-- One row of the read/compute/emit loop (hotspot.c lines 793-868), as
events (the value flow is modelled separately by `runLoop` below). `lines`
is the row counter; `num` the number of values `read_vals` returned.
`first_invocation` is `(trace_num<=0) && (lines==0)` (line 822) on the
unsigned `trace_num`: true only on the first row of a `trace_num = 0`
run, never for the standalone `-1`. -/
def rowRun (inp : DriverInput) (lines : Nat) (num : Nat) : Run :=
  if num ≠ nUnits inp then fatR "invalid trace file format"
  else if doTransient inp then
    seqRun
      (okR ((if inp.natural then [.packageUpdate, .buildR] else [])
        ++ [.computeRow (decide (utrace inp.trace_num = 0 ∧ lines = 0))]
        ++ (if inp.model_is_grid ∧ inp.grid_transient_file_given then
              [.dumpGridTransient] else [])))
      (if inp.model_is_grid = false then
         fatR "HotSpot was run with block model. Incompatible with ThermSniper toolchain."
       else okR ([.emitRow] ++ if inp.leakage_used then [.emitPowerRow] else []))
  else okR []

/-- The driver loop over the value rows of the power trace. -/
def loopRun (inp : DriverInput) : Nat → List Nat → Run
  | _, [] => okR []
  | lines, num :: rest => seqRun (rowRun inp lines num) (loopRun inp (lines + 1) rest)

/-- Post-loop phase (hotspot.c lines 869-886, then the commented-out
steady-state block 903-931 which emits nothing, then cleanup line 957):
empty-trace check, checkpoint save when the unsigned `trace_num` is `0`
(line 873, with `extra_nodes = EXTRA [+ EXTRA_SEC]`), otherwise — the
`trace_num>0` test of line 883 holds for every nonzero unsigned value,
including the standalone `-1` — the flush of the mapped checkpoint region,
which for a non-transient run was never mapped (the load at line 785
requires `do_transient`): there the flush's store `header[1] = trace_num`
dereferences the NULL region and the process dies on SIGSEGV, modelled as
an abort. The flushed header index is the unsigned `trace_num` converted
back to a C `int`. Finally the unmap of line 957, again under
`trace_num>0`. -/
def postRun (inp : DriverInput) : Run :=
  if inp.row_lens = [] then fatR "no power numbers in trace file"
  else
    seqRun
      (if utrace inp.trace_num = 0 then
         (if inp.save_fopen_ok then
            okR [.saveCkpt TRANS_TEMP_FILE
              (if inp.model_secondary then inp.EXTRA + inp.EXTRA_SEC else inp.EXTRA)]
          else fatR "fopen")
       else if doTransient inp then
         okR [.flushCkpt (asInt32 (utrace inp.trace_num)) inp.msync_ok]
       else fatR "SIGSEGV: flush of unmapped checkpoint region")
      (okR (if utrace inp.trace_num ≠ 0 then [.unloadCkpt] else []))

/-- The driver control flow of `main`, from the `detailed_3D` processing to
process exit (hotspot.c lines 613-978): the sequence of observable events
plus, when the process aborts, the fatal message. -/
def driverRun (inp : DriverInput) : Run :=
  seqRun (stageFlp inp)
    (seqRun (stageChecks inp)
      (seqRun (stageBuild inp)
        (seqRun (stageInit inp)
          (seqRun (stageOpens inp)
            (seqRun (stageNames inp)
              (seqRun (stageHeader inp)
                (seqRun (loopRun inp 0 inp.row_lens) (postRun inp))))))))

/-- Sequencing after a completed fragment. -/
theorem seqRun_of_ok {a b : Run} (h : a.2 = none) : seqRun a b = (a.1 ++ b.1, b.2) := by
  unfold seqRun
  rw [h]

/-- An aborted left fragment short-circuits. -/
theorem seqRun_of_abort {a b : Run} {m : String} (h : a.2 = some m) :
    seqRun a b = (a.1, some m) := by
  unfold seqRun
  rw [h]

/-- A sequence aborts exactly when one of its parts does (the left one
taking precedence). -/
theorem seqRun_snd_ne_none {a b : Run} (h : (seqRun a b).2 ≠ none) :
    a.2 ≠ none ∨ b.2 ≠ none := by
  unfold seqRun at h
  rcases ha : a.2 with - | m <;> rw [ha] at h
  · exact Or.inr h
  · exact Or.inl (by simp [ha])

/-- Shape of the events `stageFlp` can emit. -/
theorem stageFlp_events (inp : DriverInput) :
    ∀ e ∈ (stageFlp inp).1, e = Ev.warnOverrideFlp ∨ ∃ s, e = Ev.fatalErr s := by
  intro e he
  unfold stageFlp okR fatR at he
  split at he
  · split at he <;> simp at he
    left
    exact he
  · split at he
    · simp at he
    · simp at he
      right
      exact ⟨_, he⟩

/-- Under `use_microchannels` and a missing prerequisite, the check block of
hotspot.c lines 687-693 aborts. -/
theorem stageChecks_aborts (inp : DriverInput) (hm : inp.use_microchannels = true)
    (hbad : inp.model_is_grid = false ∨ detailed3DOf inp.detailed_3D = false) :
    ∃ m, stageChecks inp = fatR m := by
  unfold stageChecks
  by_cases h1 : inp.model_is_grid = false ∧ detailed3DOf inp.detailed_3D = true
  · rw [if_pos h1]
    exact ⟨_, rfl⟩
  · rw [if_neg h1]
    by_cases h2 : inp.model_is_grid = true ∧ inp.lcf_given = false
        ∧ detailed3DOf inp.detailed_3D = true
    · rw [if_pos h2]
      exact ⟨_, rfl⟩
    · rw [if_neg h2, if_pos ⟨hm, hbad⟩]
      exact ⟨_, rfl⟩

/-- C10 (implicit): whenever `use_microchannels` is enabled and either the
block model is selected or `detailed_3D` is not on, the driver aborts fatally
during setup, before the thermal circuit is built (`populate_R_model` is
never reached). -/
theorem hotspot_claim_c10 (inp : DriverInput)
    (hm : inp.use_microchannels = true)
    (hbad : inp.model_is_grid = false ∨ detailed3DOf inp.detailed_3D = false) :
    (∃ m, (driverRun inp).2 = some m) ∧ Ev.buildR ∉ (driverRun inp).1 := by
  obtain ⟨m, hck⟩ := stageChecks_aborts inp hm hbad
  rcases hflp : (stageFlp inp).2 with - | mf
  · have hdr : driverRun inp = ((stageFlp inp).1 ++ [Ev.fatalErr m], some m) := by
      unfold driverRun
      rw [hck, seqRun_of_abort (a := fatR m) rfl, seqRun_of_ok hflp]
      rfl
    refine ⟨⟨m, by rw [hdr]⟩, ?_⟩
    rw [hdr]
    intro hcon
    rcases List.mem_append.mp hcon with h | h
    · rcases stageFlp_events inp _ h with h | ⟨s, h⟩ <;> simp at h
    · simp at h
  · have hdr : driverRun inp = ((stageFlp inp).1, some mf) := by
      unfold driverRun
      exact seqRun_of_abort hflp
    refine ⟨⟨mf, by rw [hdr]⟩, ?_⟩
    rw [hdr]
    intro hcon
    rcases stageFlp_events inp _ hcon with h | ⟨s, h⟩ <;> simp at h

/-- A concrete standalone-run input: grid model via an LCF with one power
layer of one unit, transient output requested, two one-column power rows,
all library calls succeeding. Because the unsigned `trace_num` stores the
standalone `-1` as `4294967295`, the driver run at this input goes down the
checkpoint-load path and aborts on the empty checkpoint file; the derived
inputs below override `trace_num` or the checkpoint environment. -/
def sampleInput : DriverInput where
  detailed_3D := "off"
  use_microchannels := false
  lcf_given := true
  flp_given := false
  model_is_grid := true
  grid_steady_file_given := false
  grid_transient_file_given := false
  t_outfile_given := true
  trace_num := -1
  init_file_given := false
  dtm_used := false
  leakage_used := false
  model_secondary := false
  natural := false
  layers := [⟨true, ["core"]⟩, ⟨false, ["tim"]⟩]
  flp_n_units := 0
  header_len := 1
  row_lens := [1, 1]
  n_layers := 2
  rows := 1
  cols := 1
  ckpt_file := ⟨[], []⟩
  EXTRA := 12
  EXTRA_SEC := 20
  pin_ok := true
  tout_ok := true
  pout_ok := true
  stale_exists := false
  unlink_ok := true
  ckpt_open_ok := true
  ckpt_mmap_ok := true
  save_fopen_ok := true
  msync_ok := true

/-- The C10 witness input: microchannels requested with the block model. -/
def c10Input : DriverInput :=
  { sampleInput with use_microchannels := true, model_is_grid := false }

/-- Witness for C10: microchannels requested with the block model. -/
theorem hotspot_claim_c10_witness :
    c10Input.use_microchannels = true
      ∧ (c10Input.model_is_grid = false ∨ detailed3DOf c10Input.detailed_3D = false)
      ∧ ((∃ m, (driverRun c10Input).2 = some m) ∧ Ev.buildR ∉ (driverRun c10Input).1) :=
  ⟨rfl, Or.inl rfl, hotspot_claim_c10 c10Input rfl (Or.inl rfl)⟩

/-- The C9 counterexample input: a first-chunk transient run
(`trace_num = 0`, where signed and unsigned semantics agree) with
`detailed_3D` set to a value that is neither `on` nor `off`. -/
def c9Input : DriverInput :=
  { sampleInput with detailed_3D := "banana", trace_num := 0 }

/-- Counterexample for C9: with `detailed_3D` set to a value that is neither
`on` nor `off`, the process does not abort — the whole driver runs to
completion (the fatal for invalid values is commented out in the source,
hotspot.c line 618). -/
theorem hotspot_claim_c9_counterexample :
    c9Input.detailed_3D ≠ "on"
      ∧ c9Input.detailed_3D ≠ "off"
      ∧ (driverRun c9Input).2 = none := by
  refine ⟨by decide, by decide, ?_⟩
  decide

/-- C9 (amended): a `detailed_3D` value other than `on` — including invalid
values — is silently treated as `off`: `do_detailed_3D` is false and the
driver behaves exactly as with `detailed_3D = off`; no fatal is raised for
the invalid value. -/
theorem hotspot_claim_c9_amended (inp : DriverInput) (s : String) (hs : s ≠ "on") :
    detailed3DOf s = false
      ∧ driverRun { inp with detailed_3D := s }
        = driverRun { inp with detailed_3D := "off" } := by
  have hd : detailed3DOf s = false := by
    unfold detailed3DOf
    exact beq_eq_false_iff_ne.mpr hs
  refine ⟨hd, ?_⟩
  have hC : stageChecks { inp with detailed_3D := s }
      = stageChecks { inp with detailed_3D := "off" } := by
    unfold stageChecks
    simp [hd, show detailed3DOf "off" = false from by decide]
  have hRow : ∀ lines num, rowRun { inp with detailed_3D := s } lines num
      = rowRun { inp with detailed_3D := "off" } lines num := fun _ _ => rfl
  have hLoop : ∀ lines l, loopRun { inp with detailed_3D := s } lines l
      = loopRun { inp with detailed_3D := "off" } lines l := by
    intro lines l
    induction l generalizing lines with
    | nil => rfl
    | cons num rest ih => simp [loopRun, hRow, ih]
  unfold driverRun
  rw [hC, hLoop]
  rfl

/-- Witness for the amended C9 at the invalid value `banana`. -/
theorem hotspot_claim_c9_witness :
    "banana" ≠ "on"
      ∧ (detailed3DOf "banana" = false
        ∧ driverRun { sampleInput with detailed_3D := "banana" }
            = driverRun { sampleInput with detailed_3D := "off" }) :=
  ⟨by decide, hotspot_claim_c9_amended sampleInput "banana" (by decide)⟩

/-- The C1 evaluation input: the canonical standalone transient run —
`trace_num = -1`, a valid grid configuration with transient output
requested, and no checkpoint file on disk, so the checkpoint `open`
fails. -/
def c1Input : DriverInput := { sampleInput with ckpt_open_ok := false }

/-- C1: the claim is the intent the code itself documents (hotspot.c lines
275 and 727 comment that `trace_num = -1` marks the standalone run and that
the `trace_num<=0` branch initializes it), but `trace_num` is declared
`unsigned int` (util.h line 201), so `-1` is stored as `4294967295` and
every `trace_num<=0` test is false for it. Evaluating the driver at the
standalone input: `T_last` is never initialized from `init_file` or
`init_temp`, no header line is written, and the checkpoint load of line 785
is attempted instead, aborting on the absent checkpoint file. -/
theorem hotspot_claim_c1 :
    (driverRun c1Input).2 = some "open"
      ∧ (∀ b, Ev.initTempFromFile b ∉ (driverRun c1Input).1)
      ∧ Ev.initTempFromTemp ∉ (driverRun c1Input).1
      ∧ Ev.writeHeader ∉ (driverRun c1Input).1
      ∧ Ev.fatalErr "open" ∈ (driverRun c1Input).1 :=
  ⟨by decide, by decide, by decide, by decide, by decide⟩

/-- When a sequence completes, both parts completed. -/
theorem seqRun_none {a b : Run} (h : (seqRun a b).2 = none) : a.2 = none ∧ b.2 = none := by
  unfold seqRun at h
  rcases ha : a.2 with - | m <;> rw [ha] at h
  · exact ⟨rfl, h⟩
  · simp at h

/-- The C7 counterexample input: a subsequent chunk (`trace_num = 1`) with a
matching checkpoint on disk and a failing `msync`. -/
def c7Input : DriverInput :=
  { sampleInput with
      trace_num := 1
      msync_ok := false
      ckpt_file := ⟨[MAGIC_MMAP_FILE, 0, 2, 1, 1, 0], [300]⟩ }

/-- Counterexample for C7: an `msync` failure during the checkpoint flush
does not terminate the process. The flush returns normally after printing
`perror("msync")`, and a whole chunked run with a failing `msync` completes
without abort (the flush event records the unsynced state). -/
theorem hotspot_claim_c7_counterexample :
    ((flush_updated_last_trans_temp ⟨[MAGIC_MMAP_FILE, 0, 2, 1, 1, 0], [300]⟩ 1 false).2.2 = none
        ∧ CkptEv.msyncFailMsg
            ∈ (flush_updated_last_trans_temp ⟨[MAGIC_MMAP_FILE, 0, 2, 1, 1, 0], [300]⟩ 1 false).2.1)
      ∧ ((driverRun c7Input).2 = none
        ∧ Ev.flushCkpt 1 false ∈ (driverRun c7Input).1) := by
  refine ⟨⟨rfl, by decide⟩, by decide, by decide⟩

/-- C7 (amended): every modelled I/O failure aborts the process fatally at
its first occurrence — a failing `open` or `mmap` in the checkpoint load, a
failing `fopen` in the checkpoint save, a failing `fopen` of the power-trace
input in the driver — except that an `msync` failure during the checkpoint
flush only prints a diagnostic and the process continues. -/
theorem hotspot_claim_c7_amended :
    (∀ nL r c tn mm f, (load_last_trans_temp_mmap nL r c tn false mm f).2.2 = .error "open")
      ∧ (∀ nL r c tn f,
          (load_last_trans_temp_mmap nL r c tn true false f).2.2 = .error "mmap failed")
      ∧ (∀ EXTRA EXTRA_SEC tn m k old,
          save_last_trans_temp_mmap EXTRA EXTRA_SEC tn m k false old = .error "fopen")
      ∧ (∀ inp : DriverInput, inp.pin_ok = false → ∃ msg, (driverRun inp).2 = some msg)
      ∧ (∀ f tn, (flush_updated_last_trans_temp f tn false).2.2 = none
          ∧ CkptEv.msyncFailMsg ∈ (flush_updated_last_trans_temp f tn false).2.1) := by
  refine ⟨fun nL r c tn mm f => rfl, fun nL r c tn f => rfl,
    fun EXTRA EXTRA_SEC tn m k old => rfl, ?_, ?_⟩
  · intro inp hpin
    rcases hd : (driverRun inp).2 with - | msg
    · exfalso
      unfold driverRun at hd
      have h1 := seqRun_none hd
      have h2 := seqRun_none h1.2
      have h3 := seqRun_none h2.2
      have h4 := seqRun_none h3.2
      have h5 := seqRun_none h4.2
      have hop : (stageOpens inp).2 = none := h5.1
      unfold stageOpens at hop
      rw [if_pos hpin] at hop
      simp [fatR] at hop
    · exact ⟨msg, rfl⟩
  · intro f tn
    exact ⟨rfl, by simp [flush_updated_last_trans_temp]⟩

/-- Witness for the amended C7: a run whose power-trace open fails aborts. -/
theorem hotspot_claim_c7_witness :
    ({ sampleInput with pin_ok := false } : DriverInput).pin_ok = false
      ∧ (∃ msg, (driverRun { sampleInput with pin_ok := false }).2 = some msg) :=
  ⟨rfl, hotspot_claim_c7_amended.2.2.2.1 { sampleInput with pin_ok := false } rfl⟩

/-- C8: the claim matches the intent the code itself documents (`For 128
channels`, util.h line 194, with `volt[128]` targets and the loop storing
entry `j` as `10·x + y`), but the `volt_vector[385]` buffer is too small
for it: a stored well-formed vector does have its `j`-th entry parsed into
`volt[j]` as `10·x + y`, yet a well-formed vector can be stored at all only
when it has at most 96 entries — the comma-separated string of 97 or more
entries, in particular of the documented 128, overflows the buffer. -/
theorem hotspot_claim_c8 (es : List (Char × Char))
    (hdig : ∀ p ∈ es, p.1.isDigit ∧ p.2.isDigit) :
    ((parseVoltVector (renderVoltVector es)).isSome ↔ es.length ≤ 96)
      ∧ (∀ out, parseVoltVector (renderVoltVector es) = some out →
          ∀ (j : Nat) (hj : j < es.length),
            out.get? j = some (10 * charDigitVal (es.get ⟨j, hj⟩).1
              + charDigitVal (es.get ⟨j, hj⟩).2)) := by
  have hfit : fitsVoltVector (renderVoltVector es) = true ↔ es.length ≤ 96 := by
    unfold fitsVoltVector VOLT_VECTOR_SIZE
    rw [decide_eq_true_eq, renderVoltVector_length]
    by_cases h0 : es.length = 0
    · rw [if_pos h0]
      omega
    · rw [if_neg h0]
      omega
  constructor
  · unfold parseVoltVector
    by_cases hf : fitsVoltVector (renderVoltVector es) = true
    · rw [if_pos hf]
      constructor
      · intro _
        exact hfit.mp hf
      · intro _
        rfl
    · rw [if_neg hf]
      constructor
      · intro h
        simp at h
      · intro hle
        exact absurd (hfit.mpr hle) hf
  · intro out hout j hj
    unfold parseVoltVector at hout
    by_cases hf : fitsVoltVector (renderVoltVector es) = true
    · rw [if_pos hf, voltParseGo_render es] at hout
      obtain rfl := Option.some.inj hout
      rw [List.get?_map, List.get?_eq_get hj]
      rfl
    · rw [if_neg hf] at hout
      exact absurd hout (by simp)

/-- The 128-entry vector `1.0,1.0,…` — the channel count the `volt_vector`
declaration is commented for. -/
def es128 : List (Char × Char) := List.replicate 128 ('1', '0')

set_option maxRecDepth 8192 in
/-- Witness for C8 at the 128-entry vector: every entry is a digit pair, yet
the rendered 511-character string cannot be stored in the 385-byte buffer,
so the documented 128 entries are not supported by the code as written. -/
theorem hotspot_claim_c8_witness :
    (∀ p ∈ es128, p.1.isDigit ∧ p.2.isDigit)
      ∧ es128.length = 128
      ∧ parseVoltVector (renderVoltVector es128) = none
      ∧ (((parseVoltVector (renderVoltVector es128)).isSome ↔ es128.length ≤ 96)
        ∧ (∀ out, parseVoltVector (renderVoltVector es128) = some out →
            ∀ (j : Nat) (hj : j < es128.length),
              out.get? j = some (10 * charDigitVal (es128.get ⟨j, hj⟩).1
                + charDigitVal (es128.get ⟨j, hj⟩).2))) :=
  ⟨by decide, by decide, by decide, hotspot_claim_c8 es128 (by decide)⟩

/-! ## The per-row value flow of the trace loop (hotspot.c lines 790-868)

The power and temperature vectors (`power`, `model->grid->last_temp`) are
functions `Nat → Rat` over global node indices; the solver `compute_temp`
(outside this repository slice) is an arbitrary transition `step first power
T_last` producing the new `last_temp`. `get_blk_index` is modelled from the
spec: `names → block index` is the index of the name in the floorplan's
insertion order, fatal when absent. The C loop index `count + j` walking the
trace columns is represented by consuming the column lists segment by
segment. -/

/-- Modelled from the spec: `get_blk_index(flp, name)` — the index of `name`
in the floorplan's insertion order, `none` (fatal) when absent. -/
def get_blk_index (units : List String) (nm : String) : Option Nat :=
  units.findIdx? (fun u => u == nm)

/-- The inner permute-in loop over one power layer (hotspot.c lines
804-807): `power[base + get_blk_index(flp, names[count+j])] = vals[count+j]`
for each column of the segment. -/
def segWrite (units : List String) (base : Nat) :
    List (String × Rat) → (Nat → Rat) → Option (Nat → Rat)
  | [], p => some p
  | (nm, v) :: rest, p =>
    match get_blk_index units nm with
    | none => none
    | some idx => segWrite units base rest (Function.update p (base + idx) v)

/-- Permutation of one row of trace values into floorplan order (hotspot.c
lines 797-811, grid branch): power layers consume their segment of the
columns, every layer advances `base` by its unit count. -/
def permuteIn : List Layer → Nat → List String → List Rat → (Nat → Rat) → Option (Nat → Rat)
  | [], _, _, _, p => some p
  | L :: rest, base, names, vals, p =>
    if L.has_power then
      match segWrite L.units base
          ((names.take L.units.length).zip (vals.take L.units.length)) p with
      | none => none
      | some p2 => permuteIn rest (base + L.units.length) (names.drop L.units.length)
          (vals.drop L.units.length) p2
    else permuteIn rest (base + L.units.length) names vals p

/-- The global node index each trace column of one segment reads and
writes: `base + get_blk_index(flp, name)`. -/
def segSlots (units : List String) (base : Nat) : List String → Option (List Nat)
  | [] => some []
  | nm :: rest =>
    match get_blk_index units nm with
    | none => none
    | some idx => (segSlots units base rest).map (fun s => (base + idx) :: s)

/-- The global node index of every trace column, in column order. -/
def colSlots : List Layer → Nat → List String → Option (List Nat)
  | [], _, _ => some []
  | L :: rest, base, names =>
    if L.has_power then
      match segSlots L.units base (names.take L.units.length) with
      | none => none
      | some s1 =>
        (colSlots rest (base + L.units.length) (names.drop L.units.length)).map
          (fun s2 => s1 ++ s2)
    else colSlots rest (base + L.units.length) names

/-- The inner permute-back loop over one power layer (hotspot.c lines
840-843): `vals[count+j] = last_temp[base + get_blk_index(...)]`. -/
def segRead (units : List String) (base : Nat) (T : Nat → Rat) :
    List String → Option (List Rat)
  | [] => some []
  | nm :: rest =>
    match get_blk_index units nm with
    | none => none
    | some idx => (segRead units base T rest).map (fun l => T (base + idx) :: l)

/-- Permutation of the computed temperatures back into trace-column order
(hotspot.c lines 836-848). -/
def permuteOut : List Layer → Nat → List String → (Nat → Rat) → Option (List Rat)
  | [], _, _, _ => some []
  | L :: rest, base, names, T =>
    if L.has_power then
      match segRead L.units base T (names.take L.units.length) with
      | none => none
      | some out1 =>
        (permuteOut rest (base + L.units.length) (names.drop L.units.length) T).map
          (fun out2 => out1 ++ out2)
    else permuteOut rest (base + L.units.length) names T

/-- The driver's value loop (hotspot.c lines 793-868) for a transient grid
run: for each row, check the column count, permute the powers into floorplan
order, advance the solver one sampling interval (`first_invocation` exactly
on the first row of a run whose unsigned `trace_num` is `0` — the
`(trace_num<=0) && (lines==0)` of line 822 on the unsigned global), permute
the temperatures back and emit them. Returns the emitted rows. -/
def runLoop (layers : List Layer) (step : Bool → (Nat → Rat) → (Nat → Rat) → (Nat → Rat))
    (tn : Int) (names : List String) (p0 : Nat → Rat) :
    (Nat → Rat) → Nat → List (List Rat) → Except String (List (List Rat))
  | _, _, [] => .ok []
  | T, lines, vals :: rest =>
    if vals.length ≠ totalUnits layers then .error "invalid trace file format"
    else
      match permuteIn layers 0 names vals p0 with
      | none => .error "get_blk_index"
      | some power =>
        match permuteOut layers 0 names (step (decide (utrace tn = 0 ∧ lines = 0)) power T) with
        | none => .error "get_blk_index"
        | some out =>
          (runLoop layers step tn names p0 (step (decide (utrace tn = 0 ∧ lines = 0)) power T)
              (lines + 1) rest).map
            (fun outs => out :: outs)

/-- `write_vals` (hotspot.c lines 429-435): every value but the last printed
`"%.2f\t"`, the last printed `"%.2f\n"`. `fmt2` models the `%.2f`
conversion. -/
def write_vals (fmt : Rat → String) : List Rat → String
  | [] => "\n"
  | [v] => fmt v ++ "\n"
  | v :: rest => fmt v ++ "\t" ++ write_vals fmt rest

/-- Two decimal digits with a leading zero. -/
def twoDigitString (m : Nat) : String :=
  String.mk [Nat.digitChar (m / 10), Nat.digitChar (m % 10)]

/-- Model of the C `printf("%.2f", x)` conversion on exact rationals: the
value rounded to the nearest hundredth, printed with exactly two digits
after the decimal point. -/
def fmt2 (q : Rat) : String :=
  (if round (q * 100) < 0 then "-" else "")
    ++ toString ((round (q * 100)).natAbs / 100)
    ++ "." ++ twoDigitString ((round (q * 100)).natAbs % 100)

/-- The tab-separated, newline-terminated line format the specification
documents for trace rows. -/
def tabSeparatedLine : List String → String
  | [] => "\n"
  | [x] => x ++ "\n"
  | x :: xs => x ++ "\t" ++ tabSeparatedLine xs

/-- The permute-back of a segment reads the temperature at the segment's
column slots. -/
theorem segRead_eq_segSlots (units : List String) (base : Nat) (T : Nat → Rat) :
    ∀ seg, segRead units base T seg = (segSlots units base seg).map (fun sl => sl.map T) := by
  intro seg
  induction seg with
  | nil => rfl
  | cons nm rest ih =>
    unfold segRead segSlots
    cases get_blk_index units nm with
    | none => rfl
    | some idx =>
      simp only [ih]
      cases segSlots units base rest <;> rfl

/-- The permute-back reads the temperature at the columns' slots, in
column order. -/
theorem permuteOut_eq_colSlots :
    ∀ (layers : List Layer) (base : Nat) (names : List String) (T : Nat → Rat),
      permuteOut layers base names T = (colSlots layers base names).map (fun sl => sl.map T) := by
  intro layers
  induction layers with
  | nil => intro base names T; rfl
  | cons L rest ih =>
    intro base names T
    unfold permuteOut colSlots
    by_cases hp : L.has_power = true
    · rw [if_pos hp, if_pos hp, segRead_eq_segSlots]
      cases h1 : segSlots L.units base (names.take L.units.length) with
      | none => rfl
      | some s1 =>
        simp only [Option.map_some', ih]
        cases colSlots rest (base + L.units.length) (names.drop L.units.length) <;> simp
    · rw [if_neg hp, if_neg hp, ih]

/-- A successful segment lookup yields one slot per column. -/
theorem segSlots_length (units : List String) (base : Nat) :
    ∀ seg sl, segSlots units base seg = some sl → sl.length = seg.length := by
  intro seg
  induction seg with
  | nil =>
    intro sl h
    cases h
    rfl
  | cons nm rest ih =>
    intro sl h
    unfold segSlots at h
    cases hidx : get_blk_index units nm <;> rw [hidx] at h
    · cases h
    · cases hrest : segSlots units base rest <;> rw [hrest] at h
      · cases h
      · cases h
        simp [ih _ hrest]

/-- `totalUnits` over a cons. -/
theorem totalUnits_cons (L : Layer) (rest : List Layer) :
    totalUnits (L :: rest) = (if L.has_power then L.units.length else 0) + totalUnits rest := by
  simp only [totalUnits, List.filter_cons]
  split <;> simp

/-- A successful column lookup yields one slot per column. -/
theorem colSlots_length :
    ∀ (layers : List Layer) (base : Nat) (names : List String) (sl : List Nat),
      totalUnits layers ≤ names.length → colSlots layers base names = some sl →
      sl.length = totalUnits layers := by
  intro layers
  induction layers with
  | nil =>
    intro base names sl _ h
    cases h
    simp [totalUnits]
  | cons L rest ih =>
    intro base names sl hlen h
    rw [totalUnits_cons] at hlen ⊢
    unfold colSlots at h
    by_cases hp : L.has_power = true
    · rw [if_pos hp] at h
      rw [if_pos hp] at hlen ⊢
      cases hseg : segSlots L.units base (names.take L.units.length) <;> rw [hseg] at h
      · cases h
      · rename_i s1
        cases hrest : colSlots rest (base + L.units.length) (names.drop L.units.length)
            <;> rw [hrest] at h
        · cases h
        · rename_i s2
          cases h
          have h1 := segSlots_length L.units base _ _ hseg
          have h2 := ih (base + L.units.length) (names.drop L.units.length) s2
            (by simp; omega) hrest
          simp [h1, h2]
          omega
    · rw [if_neg hp] at h
      rw [if_neg hp] at hlen ⊢
      simpa using ih (base + L.units.length) names sl (by simpa using hlen) h

/-- Characterization of a successful run of the value loop: one output row
per input row, in order, each produced by the permute-back at some solver
state. -/
theorem runLoop_ok (layers : List Layer)
    (step : Bool → (Nat → Rat) → (Nat → Rat) → (Nat → Rat)) (tn : Int)
    (names : List String) (p0 : Nat → Rat) :
    ∀ (rows : List (List Rat)) (T : Nat → Rat) (lines : Nat) (outs : List (List Rat)),
      runLoop layers step tn names p0 T lines rows = .ok outs →
      outs.length = rows.length
        ∧ ∀ o ∈ outs, ∃ T2, permuteOut layers 0 names T2 = some o := by
  intro rows
  induction rows with
  | nil =>
    intro T lines outs h
    unfold runLoop at h
    cases h
    exact ⟨rfl, by simp⟩
  | cons vals rest ih =>
    intro T lines outs h
    unfold runLoop at h
    split at h
    · cases h
    · split at h
      · cases h
      · split at h
        · cases h
        · rename_i x1 power hpi x2 out hpo
          cases hrec : runLoop layers step tn names p0
              (step (decide (utrace tn = 0 ∧ lines = 0)) power T) (lines + 1) rest
              <;> simp only [hrec, Except.map] at h
          · cases h
          · rename_i outs2
            cases h
            obtain ⟨hl, hmem⟩ := ih _ _ _ hrec
            refine ⟨by simp [hl], ?_⟩
            intro o ho
            rcases List.mem_cons.mp ho with ho | ho
            · subst ho
              exact ⟨_, hpo⟩
            · exact hmem o ho

/-- `write_vals` produces exactly the documented tab-separated,
newline-terminated line. -/
theorem write_vals_eq_tabLine (fmt : Rat → String) :
    ∀ vals : List Rat, vals ≠ [] → write_vals fmt vals = tabSeparatedLine (vals.map fmt) := by
  intro vals
  induction vals with
  | nil => intro h; exact absurd rfl h
  | cons v rest ih =>
    intro _
    cases rest with
    | nil => rfl
    | cons w rest2 =>
      show fmt v ++ "\t" ++ write_vals fmt (w :: rest2)
          = fmt v ++ "\t" ++ tabSeparatedLine ((w :: rest2).map fmt)
      rw [ih (by simp)]

/-- The digit characters of values below ten are digits. -/
theorem digitChar_isDigit {n : Nat} (h : n < 10) : (Nat.digitChar n).isDigit = true := by
  interval_cases n <;> decide

/-- `fmt2` always ends in a decimal point followed by exactly two digits. -/
theorem fmt2_two_decimals (q : Rat) :
    ∃ pre d1 d2, fmt2 q = pre ++ "." ++ String.mk [d1, d2]
      ∧ d1.isDigit = true ∧ d2.isDigit = true := by
  refine ⟨(if round (q * 100) < 0 then "-" else "")
      ++ toString ((round (q * 100)).natAbs / 100),
    Nat.digitChar (((round (q * 100)).natAbs % 100) / 10),
    Nat.digitChar (((round (q * 100)).natAbs % 100) % 10), rfl, ?_, ?_⟩
  · exact digitChar_isDigit (by omega)
  · exact digitChar_isDigit (by omega)

/-- C6: a successful transient run emits exactly one temperature row per
power row, in the same order; each emitted row has one entry per trace
column (the header's width), its entry for column `j` being the temperature
at that column's floorplan slot; and `write_vals` renders a row as a
tab-separated, newline-terminated line whose values end in a decimal point
followed by exactly two digits. -/
theorem hotspot_claim_c6 (layers : List Layer)
    (step : Bool → (Nat → Rat) → (Nat → Rat) → (Nat → Rat)) (tn : Int)
    (names : List String) (p0 T0 : Nat → Rat) (rows outs : List (List Rat))
    (hnames : names.length = totalUnits layers)
    (hrun : runLoop layers step tn names p0 T0 0 rows = .ok outs) :
    outs.length = rows.length
      ∧ (∀ o ∈ outs, ∃ slots T, colSlots layers 0 names = some slots
          ∧ o = slots.map T ∧ o.length = names.length)
      ∧ (∀ vals : List Rat, vals ≠ [] →
          write_vals fmt2 vals = tabSeparatedLine (vals.map fmt2))
      ∧ (∀ q : Rat, ∃ pre d1 d2, fmt2 q = pre ++ "." ++ String.mk [d1, d2]
          ∧ d1.isDigit = true ∧ d2.isDigit = true) := by
  obtain ⟨hlen, hmem⟩ := runLoop_ok layers step tn names p0 rows T0 0 outs hrun
  refine ⟨hlen, ?_, write_vals_eq_tabLine fmt2, fmt2_two_decimals⟩
  intro o ho
  obtain ⟨T2, hT2⟩ := hmem o ho
  rw [permuteOut_eq_colSlots] at hT2
  cases hsl : colSlots layers 0 names <;> rw [hsl] at hT2
  · cases hT2
  · rename_i slots
    simp only [Option.map_some', Option.some.injEq] at hT2
    have hslen : slots.length = totalUnits layers :=
      colSlots_length layers 0 names slots (by omega) hsl
    exact ⟨slots, T2, rfl, hT2.symm, by simp [← hT2, hslen, hnames]⟩

/-- Witness for C6: one power layer with units `a, b`, trace columns in the
order `b, a`, a single row, the solver echoing the power vector. -/
theorem hotspot_claim_c6_witness :
    (["b", "a"] : List String).length = totalUnits [⟨true, ["a", "b"]⟩]
      ∧ runLoop [⟨true, ["a", "b"]⟩] (fun _ p _ => p) (-1) ["b", "a"]
          (fun _ => 0) (fun _ => 0) 0 [[1, 2]] = .ok [[1, 2]]
      ∧ (([[1, 2]] : List (List Rat)).length = ([[1, 2]] : List (List Rat)).length
          ∧ (∀ o ∈ ([[1, 2]] : List (List Rat)), ∃ slots T,
              colSlots [⟨true, ["a", "b"]⟩] 0 ["b", "a"] = some slots
                ∧ o = slots.map T ∧ o.length = (["b", "a"] : List String).length)
          ∧ (∀ vals : List Rat, vals ≠ [] →
              write_vals fmt2 vals = tabSeparatedLine (vals.map fmt2))
          ∧ (∀ q : Rat, ∃ pre d1 d2, fmt2 q = pre ++ "." ++ String.mk [d1, d2]
              ∧ d1.isDigit = true ∧ d2.isDigit = true)) :=
  ⟨rfl, rfl,
    hotspot_claim_c6 [⟨true, ["a", "b"]⟩] (fun _ p _ => p) (-1) ["b", "a"]
      (fun _ => 0) (fun _ => 0) [[1, 2]] [[1, 2]] rfl rfl⟩

/-- The effect of a sequence of `power[slot] = value` stores. -/
def applyUpdates (p : Nat → Rat) (ps : List (Nat × Rat)) : Nat → Rat :=
  ps.foldl (fun q sv => Function.update q sv.1 sv.2) p

/-- The permute-in of a segment stores each column's value at the column's
slot. -/
theorem segWrite_eq_slots (units : List String) (base : Nat) :
    ∀ (names : List String) (vals : List Rat) (p : Nat → Rat), names.length = vals.length →
      segWrite units base (names.zip vals) p
        = (segSlots units base names).map (fun sl => applyUpdates p (sl.zip vals)) := by
  intro names
  induction names with
  | nil =>
    intro vals p _
    rfl
  | cons nm rest ih =>
    intro vals p h
    cases vals with
    | nil => simp at h
    | cons v vs =>
      simp only [List.zip_cons_cons]
      cases hidx : get_blk_index units nm with
      | none => simp [segWrite, segSlots, hidx]
      | some idx =>
        simp only [segWrite, segSlots, hidx]
        rw [ih vs (Function.update p (base + idx) v) (by simpa using h)]
        cases segSlots units base rest <;> rfl

/-- The permute-in stores each trace column's value at that column's slot. -/
theorem permuteIn_eq_slots :
    ∀ (layers : List Layer) (base : Nat) (names : List String) (vals : List Rat)
      (p : Nat → Rat),
      names.length = vals.length → totalUnits layers ≤ names.length →
      permuteIn layers base names vals p
        = (colSlots layers base names).map (fun sl => applyUpdates p (sl.zip vals)) := by
  intro layers
  induction layers with
  | nil =>
    intro base names vals p _ _
    rfl
  | cons L rest ih =>
    intro base names vals p hlen htot
    rw [totalUnits_cons] at htot
    unfold permuteIn colSlots
    by_cases hp : L.has_power = true
    · rw [if_pos hp, if_pos hp]
      rw [if_pos hp] at htot
      have hlen1 : (names.take L.units.length).length = L.units.length := by
        simp
        omega
      have hlenv : (vals.take L.units.length).length = L.units.length := by
        simp
        omega
      rw [segWrite_eq_slots L.units base (names.take L.units.length)
        (vals.take L.units.length) p (by rw [hlen1, hlenv])]
      cases hseg : segSlots L.units base (names.take L.units.length) with
      | none => rfl
      | some s1 =>
        simp only [Option.map_some']
        rw [ih (base + L.units.length) (names.drop L.units.length) (vals.drop L.units.length)
          (applyUpdates p (s1.zip (vals.take L.units.length))) (by simp; omega) (by simp; omega)]
        cases hrest : colSlots rest (base + L.units.length) (names.drop L.units.length) with
        | none => rfl
        | some s2 =>
          simp only [Option.map_some', Option.some.injEq]
          have hs1 : s1.length = L.units.length := by
            rw [segSlots_length L.units base _ _ hseg, hlen1]
          conv_rhs => rw [show vals = vals.take L.units.length ++ vals.drop L.units.length from
            (List.take_append_drop _ _).symm]
          rw [List.zip_append (by rw [hs1, hlenv])]
          unfold applyUpdates
          rw [List.foldl_append]
    · rw [if_neg hp, if_neg hp]
      rw [if_neg hp] at htot
      exact ih (base + L.units.length) names vals p hlen (by omega)

/-- Reordering a store sequence with pairwise-distinct slots leaves the
resulting power vector unchanged. -/
theorem applyUpdates_perm {l₁ l₂ : List (Nat × Rat)} (hp : l₁.Perm l₂) :
    ∀ p : Nat → Rat, (l₁.map Prod.fst).Nodup → applyUpdates p l₁ = applyUpdates p l₂ := by
  induction hp with
  | nil =>
    intro p _
    rfl
  | cons x hperm ih =>
    intro p hnd
    simp only [applyUpdates, List.foldl_cons]
    exact ih _ (by simp only [List.map_cons, List.nodup_cons] at hnd; exact hnd.2)
  | swap x y l =>
    intro p hnd
    simp only [List.map_cons, List.nodup_cons, List.mem_cons] at hnd
    have hxy : y.1 ≠ x.1 := fun hcon => hnd.1 (Or.inl hcon)
    simp only [applyUpdates, List.foldl_cons]
    rw [Function.update_comm hxy]
  | trans h12 h23 ih1 ih2 =>
    intro p hnd
    rw [ih1 p hnd, ih2 p (((h12.map Prod.fst).nodup_iff).mp hnd)]

/-- Global lookup of a unit name across the layer stack: the slot the name
occupies, scanning power layers in order with cumulative bases. -/
def lookupSlot : List Layer → Nat → String → Option Nat
  | [], _, _ => none
  | L :: rest, base, nm =>
    if L.has_power then
      match get_blk_index L.units nm with
      | some idx => some (base + idx)
      | none => lookupSlot rest (base + L.units.length) nm
    else lookupSlot rest (base + L.units.length) nm

/-- The unit names of the power layers, in stack order. -/
def powerUnits (layers : List Layer) : List String :=
  (layers.filter fun L => L.has_power).flatMap fun L => L.units

/-- `powerUnits` over a cons. -/
theorem powerUnits_cons (L : Layer) (rest : List Layer) :
    powerUnits (L :: rest) = (if L.has_power then L.units else []) ++ powerUnits rest := by
  simp only [powerUnits, List.filter_cons]
  split <;> simp

/-- A successful block lookup returns the index of the name. -/
theorem get_blk_index_some {units : List String} {nm : String} {idx : Nat}
    (h : get_blk_index units nm = some idx) :
    idx < units.length ∧ units.get? idx = some nm := by
  unfold get_blk_index at h
  rw [List.findIdx?_eq_some_iff_getElem] at h
  obtain ⟨hlt, hp, -⟩ := h
  refine ⟨hlt, ?_⟩
  rw [List.get?_eq_get hlt]
  simpa using eq_of_beq hp

/-- A name absent from the floorplan has no block index. -/
theorem get_blk_index_none_of_not_mem {units : List String} {nm : String}
    (h : nm ∉ units) : get_blk_index units nm = none := by
  unfold get_blk_index
  rw [List.findIdx?_eq_none_iff]
  intro u hu
  simp only [beq_eq_false_iff_ne, ne_eq]
  intro hcon
  exact h (hcon ▸ hu)

/-- A found name is in the floorplan. -/
theorem get_blk_index_mem {units : List String} {nm : String} {idx : Nat}
    (h : get_blk_index units nm = some idx) : nm ∈ units :=
  List.get?_mem (get_blk_index_some h).2

/-- Per-column characterization of a segment's slots. -/
theorem segSlots_get (units : List String) (base : Nat) :
    ∀ (seg : List String) (sl : List Nat), segSlots units base seg = some sl →
      ∀ (j : Nat) (nm : String), seg.get? j = some nm →
        ∃ idx, get_blk_index units nm = some idx ∧ sl.get? j = some (base + idx) := by
  intro seg
  induction seg with
  | nil =>
    intro sl _ j nm hj
    simp at hj
  | cons nm0 rest ih =>
    intro sl hsl j nm hj
    unfold segSlots at hsl
    cases hidx : get_blk_index units nm0 <;> rw [hidx] at hsl
    · cases hsl
    · rename_i idx0
      cases hrest : segSlots units base rest <;> rw [hrest] at hsl
      · cases hsl
      · cases hsl
        cases j with
        | zero =>
          simp only [List.get?_cons_zero, Option.some.injEq] at hj
          subst hj
          exact ⟨idx0, hidx, rfl⟩
        | succ j =>
          simp only [List.get?_cons_succ] at hj ⊢
          exact ih _ hrest j nm hj

/-- Every column name of a successful column lookup is a power-layer unit. -/
theorem colSlots_mem :
    ∀ (layers : List Layer) (base : Nat) (names : List String) (sl : List Nat),
      totalUnits layers ≤ names.length → colSlots layers base names = some sl →
      ∀ (j : Nat) (nm : String), j < totalUnits layers → names.get? j = some nm →
        nm ∈ powerUnits layers := by
  intro layers
  induction layers with
  | nil =>
    intro base names sl _ _ j nm hj
    simp [totalUnits] at hj
  | cons L rest ih =>
    intro base names sl hlen hsl j nm hj hnm
    rw [totalUnits_cons] at hlen hj
    rw [powerUnits_cons]
    unfold colSlots at hsl
    by_cases hp : L.has_power = true
    · rw [if_pos hp] at hsl hj hlen ⊢
      cases hseg : segSlots L.units base (names.take L.units.length) <;> rw [hseg] at hsl
      · cases hsl
      · rename_i s1
        cases hrest : colSlots rest (base + L.units.length) (names.drop L.units.length)
            <;> rw [hrest] at hsl
        · cases hsl
        · by_cases hjl : j < L.units.length
          · have hseg_get : (names.take L.units.length).get? j = some nm := by
              rw [List.get?_take hjl]
              exact hnm
            obtain ⟨idx, hidx, -⟩ := segSlots_get L.units base _ _ hseg j nm hseg_get
            exact List.mem_append.mpr (Or.inl (get_blk_index_mem hidx))
          · have hdrop_get : (names.drop L.units.length).get? (j - L.units.length)
                = some nm := by
              rw [List.get?_drop]
              rw [show L.units.length + (j - L.units.length) = j by omega]
              exact hnm
            have := ih (base + L.units.length) (names.drop L.units.length) _
              (by simp; omega) hrest (j - L.units.length) nm (by omega) hdrop_get
            exact List.mem_append.mpr (Or.inr this)
    · rw [if_neg hp] at hsl hj hlen ⊢
      simp only [List.nil_append]
      exact ih (base + L.units.length) names sl (by omega) hsl j nm (by omega) hnm

/-- With globally distinct power-layer unit names, the slot of every column
is the global lookup of the column's name. -/
theorem colSlots_lookup :
    ∀ (layers : List Layer) (base : Nat) (names : List String) (sl : List Nat),
      (powerUnits layers).Nodup →
      totalUnits layers ≤ names.length → colSlots layers base names = some sl →
      ∀ (j : Nat) (nm : String), j < totalUnits layers → names.get? j = some nm →
        sl.get? j = lookupSlot layers base nm := by
  intro layers
  induction layers with
  | nil =>
    intro base names sl _ _ _ j nm hj _
    simp [totalUnits] at hj
  | cons L rest ih =>
    intro base names sl hglob hlen hsl j nm hj hnm
    rw [totalUnits_cons] at hlen hj
    rw [powerUnits_cons] at hglob
    unfold colSlots at hsl
    unfold lookupSlot
    by_cases hp : L.has_power = true
    · rw [if_pos hp] at hsl hj hlen hglob ⊢
      obtain ⟨hndL, hndRest, hdisj⟩ := List.nodup_append.mp hglob
      cases hseg : segSlots L.units base (names.take L.units.length) <;> rw [hseg] at hsl
      · cases hsl
      · rename_i s1
        cases hrest : colSlots rest (base + L.units.length) (names.drop L.units.length)
            <;> rw [hrest] at hsl
        · cases hsl
        · rename_i s2
          cases hsl
          have hs1len : s1.length = L.units.length := by
            rw [segSlots_length _ _ _ _ hseg]
            simp
            omega
          by_cases hjl : j < L.units.length
          · have hget : (s1 ++ s2).get? j = s1.get? j := List.get?_append (by omega)
            have hseg_get : (names.take L.units.length).get? j = some nm := by
              rw [List.get?_take hjl]
              exact hnm
            obtain ⟨idx, hidx, hslj⟩ := segSlots_get L.units base _ _ hseg j nm hseg_get
            rw [hget, hslj, hidx]
          · have hget : (s1 ++ s2).get? j = s2.get? (j - L.units.length) := by
              rw [List.get?_append_right (by omega)]
              congr 1
              omega
            have hdrop_get : (names.drop L.units.length).get? (j - L.units.length)
                = some nm := by
              rw [List.get?_drop, show L.units.length + (j - L.units.length) = j by omega]
              exact hnm
            have hmem : nm ∈ powerUnits rest :=
              colSlots_mem rest _ _ _ (by simp; omega) hrest _ nm (by omega) hdrop_get
            have hnotL : nm ∉ L.units := fun hcon => hdisj hcon hmem
            rw [hget, get_blk_index_none_of_not_mem hnotL]
            exact ih _ _ _ hndRest (by simp; omega) hrest _ nm (by omega) hdrop_get
    · rw [if_neg hp] at hsl hj hlen hglob ⊢
      simp only [List.nil_append] at hglob
      exact ih _ names sl hglob (by omega) hsl j nm (by omega) hnm

/-- Total unit count over all layers. -/
def allUnitsLen (layers : List Layer) : Nat :=
  (layers.map fun L => L.units.length).sum

/-- Bounds of a successful global lookup. -/
theorem lookupSlot_range :
    ∀ (layers : List Layer) (base : Nat) (nm : String) (s : Nat),
      lookupSlot layers base nm = some s → base ≤ s ∧ s < base + allUnitsLen layers := by
  intro layers
  induction layers with
  | nil =>
    intro base nm s h
    cases h
  | cons L rest ih =>
    intro base nm s h
    unfold lookupSlot at h
    have hall : allUnitsLen (L :: rest) = L.units.length + allUnitsLen rest := by
      simp [allUnitsLen]
    by_cases hp : L.has_power = true
    · rw [if_pos hp] at h
      cases hidx : get_blk_index L.units nm <;> rw [hidx] at h
      · obtain ⟨h1, h2⟩ := ih _ nm s h
        rw [hall]
        omega
      · rename_i idx
        cases h
        have := (get_blk_index_some hidx).1
        rw [hall]
        omega
    · rw [if_neg hp] at h
      obtain ⟨h1, h2⟩ := ih _ nm s h
      rw [hall]
      omega

/-- Two names with the same global slot are the same name. -/
theorem lookupSlot_inj :
    ∀ (layers : List Layer) (base : Nat) (nm1 nm2 : String) (s : Nat),
      lookupSlot layers base nm1 = some s → lookupSlot layers base nm2 = some s →
      nm1 = nm2 := by
  intro layers
  induction layers with
  | nil =>
    intro base nm1 nm2 s h _
    cases h
  | cons L rest ih =>
    intro base nm1 nm2 s h1 h2
    unfold lookupSlot at h1 h2
    by_cases hp : L.has_power = true
    · rw [if_pos hp] at h1 h2
      cases hi1 : get_blk_index L.units nm1 <;> rw [hi1] at h1
      · cases hi2 : get_blk_index L.units nm2 <;> rw [hi2] at h2
        · exact ih _ nm1 nm2 s h1 h2
        · rename_i idx2
          cases h2
          have hr := lookupSlot_range rest (base + L.units.length) nm1 _ h1
          have hb := (get_blk_index_some hi2).1
          omega
      · rename_i idx1
        cases hi2 : get_blk_index L.units nm2 <;> rw [hi2] at h2
        · cases h1
          have hr := lookupSlot_range rest (base + L.units.length) nm2 _ h2
          have hb := (get_blk_index_some hi1).1
          omega
        · rename_i idx2
          cases h1
          injection h2 with h2
          have hidx : idx1 = idx2 := by omega
          have g1 := (get_blk_index_some hi1).2
          have g2 := (get_blk_index_some hi2).2
          rw [hidx] at g1
          exact Option.some.inj (g1.symm.trans g2)
    · rw [if_neg hp] at h1 h2
      exact ih _ nm1 nm2 s h1 h2

/-- Application of a column permutation `σ` to a row: entry `j` of the result
is entry `σ j` of the original (so the original is recovered by the inverse
permutation). -/
def permuteBy {α : Type} (n : Nat) (σ : Equiv (Fin n) (Fin n)) (d : α) (l : List α) :
    List α :=
  (List.finRange n).map (fun j => l.getD (σ j) d)

/-- Indexing a map over `finRange`. -/
theorem finRange_map_get? {γ : Type} {n : Nat} (g : Fin n → γ) (k : Nat) (hk : k < n) :
    ((List.finRange n).map g).get? k = some (g ⟨k, hk⟩) := by
  rw [List.get?_map, List.get?_eq_get (by simpa using hk), List.get_finRange]
  rfl

/-- Entries of a permuted row. -/
theorem permuteBy_get? {α : Type} (n : Nat) (σ : Equiv (Fin n) (Fin n)) (d : α)
    (l : List α) (j : Fin n) :
    (permuteBy n σ d l).get? (j : Nat) = some (l.getD (σ j) d) := by
  unfold permuteBy
  rw [finRange_map_get? _ _ j.isLt]

/-- Length of a permuted row. -/
theorem permuteBy_length {α : Type} (n : Nat) (σ : Equiv (Fin n) (Fin n)) (d : α)
    (l : List α) : (permuteBy n σ d l).length = n := by
  simp [permuteBy]

/-- Composing a map over `finRange` with a permutation yields a permutation
of the list. -/
theorem map_finRange_comp_perm {γ : Type} (n : Nat) (σ : Equiv (Fin n) (Fin n))
    (g : Fin n → γ) :
    ((List.finRange n).map (fun j => g (σ j))).Perm ((List.finRange n).map g) := by
  have h1 : (List.finRange n).map (fun j => g (σ j)) = ((List.finRange n).map σ).map g := by
    rw [List.map_map]
    rfl
  rw [h1]
  refine List.Perm.map g ?_
  have hnd : ((List.finRange n).map σ).Nodup :=
    List.Nodup.map σ.injective (List.nodup_finRange n)
  have hsub : (List.finRange n).map (σ : Fin n → Fin n) ⊆ List.finRange n :=
    fun x _ => List.mem_finRange x
  exact (List.subperm_of_subset hnd hsub).perm_of_length_le (by simp)

/-- A list of length `n` is the map of its entries over `finRange n`. -/
theorem eq_finRange_map_getD {α : Type} (d : α) (l : List α) {n : Nat}
    (hl : l.length = n) :
    l = (List.finRange n).map (fun j : Fin n => l.getD (j : Nat) d) := by
  apply List.ext_get?
  intro k
  by_cases hk : k < n
  · rw [finRange_map_get? _ _ hk, List.get?_eq_get (by omega), List.getD_eq_getElem?_getD,
      List.getElem?_eq_getElem (by omega)]
    rfl
  · rw [List.get?_eq_getElem?, List.getElem?_eq_none (by omega),
      List.get?_eq_getElem?, List.getElem?_eq_none (by simp; omega)]

/-- A zip of two `n`-length lists as a map over `finRange n`. -/
theorem zip_eq_finRange_map {n : Nat} (sl : List Nat) (r : List Rat)
    (h1 : sl.length = n) (h2 : r.length = n) :
    sl.zip r
      = (List.finRange n).map (fun j : Fin n => (sl.getD (j : Nat) 0, r.getD (j : Nat) 0)) := by
  apply List.ext_get?
  intro k
  by_cases hk : k < n
  · rw [finRange_map_get? _ _ hk, List.get?_eq_getElem?]
    apply List.getElem?_zip_eq_some.mpr
    constructor
    · show sl[k]? = some (sl.getD k 0)
      rw [List.getD_eq_getElem?_getD, List.getElem?_eq_getElem (show k < sl.length by omega)]
      rfl
    · show r[k]? = some (r.getD k 0)
      rw [List.getD_eq_getElem?_getD, List.getElem?_eq_getElem (show k < r.length by omega)]
      rfl
  · rw [List.get?_eq_getElem?, List.getElem?_eq_none (by rw [List.length_zip]; omega),
      List.get?_eq_getElem?, List.getElem?_eq_none (by simp; omega)]

/-- With both runs' columns resolving to slots, the permuted run's store
sequence is the `σ`-composed one. -/
theorem zip_permuted_eq_finRange_map {n : Nat} (σ : Equiv (Fin n) (Fin n))
    (sl1 sl2 : List Nat) (r : List Rat)
    (hsllen1 : sl1.length = n) (hsllen2 : sl2.length = n) (hr : r.length = n)
    (hslperm : ∀ j : Fin n, sl2.get? (j : Nat) = sl1.get? ((σ j : Fin n) : Nat)) :
    sl2.zip (permuteBy n σ 0 r)
      = (List.finRange n).map
          (fun j : Fin n => (sl1.getD ((σ j : Fin n) : Nat) 0, r.getD ((σ j : Fin n) : Nat) 0)) := by
  apply List.ext_get?
  intro k
  by_cases hk : k < n
  · rw [finRange_map_get? _ _ hk, List.get?_eq_getElem?]
    apply List.getElem?_zip_eq_some.mpr
    constructor
    · rw [← List.get?_eq_getElem?, hslperm ⟨k, hk⟩,
        List.get?_eq_get (show ((σ ⟨k, hk⟩ : Fin n) : Nat) < sl1.length by
          rw [hsllen1]; exact (σ ⟨k, hk⟩).isLt)]
      congr 1
      rw [List.getD_eq_getElem?_getD,
        List.getElem?_eq_getElem (show ((σ ⟨k, hk⟩ : Fin n) : Nat) < sl1.length by
          rw [hsllen1]; exact (σ ⟨k, hk⟩).isLt)]
      rfl
    · rw [← List.get?_eq_getElem?, permuteBy_get? n σ 0 r ⟨k, hk⟩]
  · rw [List.get?_eq_getElem?,
      List.getElem?_eq_none (by rw [List.length_zip, hsllen2, permuteBy_length]; omega),
      List.get?_eq_getElem?, List.getElem?_eq_none (by simp; omega)]

/-- The permuted run's emitted row is the `σ`-permutation of the original
run's emitted row. -/
theorem map_slots_permuted {n : Nat} (σ : Equiv (Fin n) (Fin n)) (sl1 sl2 : List Nat)
    (T2 : Nat → Rat) (hsllen1 : sl1.length = n) (hsllen2 : sl2.length = n)
    (hslperm : ∀ j : Fin n, sl2.get? (j : Nat) = sl1.get? ((σ j : Fin n) : Nat)) :
    sl2.map T2 = permuteBy n σ 0 (sl1.map T2) := by
  apply List.ext_get?
  intro k
  by_cases hk : k < n
  · rw [List.get?_map, hslperm ⟨k, hk⟩, permuteBy_get? n σ 0 (sl1.map T2) ⟨k, hk⟩]
    have hσ : ((σ ⟨k, hk⟩ : Fin n) : Nat) < sl1.length := by
      rw [hsllen1]
      exact (σ ⟨k, hk⟩).isLt
    rw [List.get?_eq_get hσ]
    simp only [Option.map_some', Option.some.injEq]
    rw [List.getD_eq_getElem?_getD, List.getElem?_eq_getElem (by simp; omega)]
    simp [List.getElem_map]
  · rw [List.get?_eq_getElem?, List.getElem?_eq_none (by simp; omega),
      List.get?_eq_getElem?, List.getElem?_eq_none (by rw [permuteBy_length]; omega)]

/-- Core of C5: with both column layouts resolving to slots related by `σ`,
the permuted run emits, row for row, the `σ`-permuted temperatures of the
original run. -/
theorem runLoop_permuted (layers : List Layer)
    (step : Bool → (Nat → Rat) → (Nat → Rat) → (Nat → Rat)) (tn : Int)
    (p0 : Nat → Rat) (names1 names2 : List String) (n : Nat)
    (σ : Equiv (Fin n) (Fin n)) (sl1 sl2 : List Nat)
    (hn : totalUnits layers = n)
    (hlen1 : names1.length = n) (hlen2 : names2.length = n)
    (hsl1 : colSlots layers 0 names1 = some sl1)
    (hsl2 : colSlots layers 0 names2 = some sl2)
    (hsllen1 : sl1.length = n) (hsllen2 : sl2.length = n)
    (hslperm : ∀ j : Fin n, sl2.get? (j : Nat) = sl1.get? ((σ j : Fin n) : Nat))
    (hnd2 : sl2.Nodup) :
    ∀ (rows : List (List Rat)) (T : Nat → Rat) (lines : Nat)
      (outs1 outs2 : List (List Rat)),
      (∀ r ∈ rows, r.length = n) →
      runLoop layers step tn names1 p0 T lines rows = .ok outs1 →
      runLoop layers step tn names2 p0 T lines (rows.map (permuteBy n σ 0)) = .ok outs2 →
      outs2 = outs1.map (permuteBy n σ 0) := by
  intro rows
  induction rows with
  | nil =>
    intro T lines outs1 outs2 _ h1 h2
    simp only [List.map_nil] at h2
    unfold runLoop at h1 h2
    cases h1
    cases h2
    rfl
  | cons r rest ih =>
    intro T lines outs1 outs2 hrl h1 h2
    have hr : r.length = n := hrl r (by simp)
    have hrest : ∀ x ∈ rest, x.length = n := fun x hx => hrl x (by simp [hx])
    simp only [List.map_cons] at h2
    unfold runLoop at h1 h2
    rw [if_neg (by omega : ¬ r.length ≠ totalUnits layers)] at h1
    rw [if_neg (by rw [permuteBy_length]; omega
      : ¬ (permuteBy n σ 0 r).length ≠ totalUnits layers)] at h2
    have hpi1 : permuteIn layers 0 names1 r p0
        = some (applyUpdates p0 (sl1.zip r)) := by
      rw [permuteIn_eq_slots layers 0 names1 r p0 (by omega) (by omega), hsl1]
      rfl
    have hpow : applyUpdates p0 (sl2.zip (permuteBy n σ 0 r))
        = applyUpdates p0 (sl1.zip r) := by
      have hperm : (sl2.zip (permuteBy n σ 0 r)).Perm (sl1.zip r) := by
        rw [zip_eq_finRange_map sl1 r hsllen1 hr,
          zip_permuted_eq_finRange_map σ sl1 sl2 r hsllen1 hsllen2 hr hslperm]
        exact map_finRange_comp_perm n σ
          (fun j : Fin n => (sl1.getD (j : Nat) 0, r.getD (j : Nat) 0))
      have hfst : ((sl2.zip (permuteBy n σ 0 r)).map Prod.fst).Nodup := by
        rw [List.map_fst_zip _ _ (by rw [hsllen2, permuteBy_length])]
        exact hnd2
      exact applyUpdates_perm hperm p0 hfst
    have hpi2 : permuteIn layers 0 names2 (permuteBy n σ 0 r) p0
        = some (applyUpdates p0 (sl1.zip r)) := by
      rw [permuteIn_eq_slots layers 0 names2 (permuteBy n σ 0 r) p0
        (by rw [hlen2, permuteBy_length]) (by omega), hsl2]
      simp only [Option.map_some']
      rw [hpow]
    split at h1
    · cases h1
    · rename_i power1 hpi1e
      have hp1 : power1 = applyUpdates p0 (sl1.zip r) :=
        Option.some.inj (hpi1e.symm.trans hpi1)
      subst hp1
      split at h1
      · cases h1
      · rename_i out1 hpo1e
        have hpo1 : permuteOut layers 0 names1
            (step (decide (utrace tn = 0 ∧ lines = 0)) (applyUpdates p0 (sl1.zip r)) T)
            = some (sl1.map
                (step (decide (utrace tn = 0 ∧ lines = 0)) (applyUpdates p0 (sl1.zip r)) T)) := by
          rw [permuteOut_eq_colSlots, hsl1]
          rfl
        have ho1 : out1 = sl1.map
            (step (decide (utrace tn = 0 ∧ lines = 0)) (applyUpdates p0 (sl1.zip r)) T) :=
          Option.some.inj (hpo1e.symm.trans hpo1)
        subst ho1
        cases hrec1 : runLoop layers step tn names1 p0
            (step (decide (utrace tn = 0 ∧ lines = 0)) (applyUpdates p0 (sl1.zip r)) T)
            (lines + 1) rest <;> simp only [hrec1, Except.map] at h1
        · cases h1
        · rename_i outs1t
          cases h1
          split at h2
          · cases h2
          · rename_i power2 hpi2e
            have hp2 : power2 = applyUpdates p0 (sl1.zip r) :=
              Option.some.inj (hpi2e.symm.trans hpi2)
            subst hp2
            split at h2
            · cases h2
            · rename_i out2 hpo2e
              have hpo2 : permuteOut layers 0 names2
                  (step (decide (utrace tn = 0 ∧ lines = 0)) (applyUpdates p0 (sl1.zip r)) T)
                  = some (sl2.map
                      (step (decide (utrace tn = 0 ∧ lines = 0)) (applyUpdates p0 (sl1.zip r)) T)) := by
                rw [permuteOut_eq_colSlots, hsl2]
                rfl
              have ho2 : out2 = sl2.map
                  (step (decide (utrace tn = 0 ∧ lines = 0)) (applyUpdates p0 (sl1.zip r)) T) :=
                Option.some.inj (hpo2e.symm.trans hpo2)
              subst ho2
              cases hrec2 : runLoop layers step tn names2 p0
                  (step (decide (utrace tn = 0 ∧ lines = 0)) (applyUpdates p0 (sl1.zip r)) T)
                  (lines + 1) (rest.map (permuteBy n σ 0))
                  <;> simp only [hrec2, Except.map] at h2
              · cases h2
              · rename_i outs2t
                cases h2
                have hih := ih
                  (step (decide (utrace tn = 0 ∧ lines = 0)) (applyUpdates p0 (sl1.zip r)) T)
                  (lines + 1) outs1t outs2t hrest hrec1 hrec2
                have hout := map_slots_permuted σ sl1 sl2
                  (step (decide (utrace tn = 0 ∧ lines = 0)) (applyUpdates p0 (sl1.zip r)) T)
                  hsllen1 hsllen2 hslperm
                rw [List.map_cons, hih, hout]

/-- A permuted row is a permutation of the row. -/
theorem permuteBy_perm {α : Type} (n : Nat) (σ : Equiv (Fin n) (Fin n)) (d : α)
    (l : List α) (hl : l.length = n) : (permuteBy n σ d l).Perm l := by
  have h := map_finRange_comp_perm n σ (fun j : Fin n => l.getD (j : Nat) d)
  have h2 : permuteBy n σ d l
      = (List.finRange n).map (fun j : Fin n => l.getD ((σ j : Fin n) : Nat) d) := rfl
  rw [h2]
  exact h.trans (List.Perm.of_eq (eq_finRange_map_getD d l hl).symm)

/-- With globally distinct power-layer unit names and a duplicate-free
header, the column slots are pairwise distinct. -/
theorem colSlots_nodup (layers : List Layer) (base : Nat) (names : List String)
    (sl : List Nat) (hglob : (powerUnits layers).Nodup) (hnames : names.Nodup)
    (hlen : totalUnits layers ≤ names.length)
    (hsl : colSlots layers base names = some sl) : sl.Nodup := by
  have hsllen : sl.length = totalUnits layers :=
    colSlots_length layers base names sl hlen hsl
  rw [List.nodup_iff_injective_get]
  intro i j hij
  have hi : (i : Nat) < totalUnits layers := by
    have := i.isLt
    omega
  have hj : (j : Nat) < totalUnits layers := by
    have := j.isLt
    omega
  have hi2 : (i : Nat) < names.length := by omega
  have hj2 : (j : Nat) < names.length := by omega
  have e1 := colSlots_lookup layers base names sl hglob hlen hsl (i : Nat)
    (names.get ⟨(i : Nat), hi2⟩) hi (List.get?_eq_get hi2)
  have e2 := colSlots_lookup layers base names sl hglob hlen hsl (j : Nat)
    (names.get ⟨(j : Nat), hj2⟩) hj (List.get?_eq_get hj2)
  rw [List.get?_eq_get i.isLt] at e1
  rw [List.get?_eq_get j.isLt] at e2
  have hv1 : lookupSlot layers base (names.get ⟨(i : Nat), hi2⟩) = some (sl.get i) := by
    rw [← e1]
  have hv2 : lookupSlot layers base (names.get ⟨(j : Nat), hj2⟩) = some (sl.get i) := by
    rw [← e2, hij]
  have hnm := lookupSlot_inj layers base _ _ _ hv1 hv2
  have hinj := List.nodup_iff_injective_get.mp hnames
  have := hinj hnm
  apply Fin.ext
  exact congrArg Fin.val this |>.trans rfl

/-- C5: permuting the columns of the power trace — header names and all
value rows alike, by any permutation `σ` — yields, when the permuted run
also completes, exactly the `σ`-permuted temperature rows: the temperature
written for a named block is a function of the per-block power assignment
only, not of the trace column order. Requires the power-layer unit names to
be globally distinct and the header duplicate-free, as a floorplan provides. -/
theorem hotspot_claim_c5 (layers : List Layer)
    (step : Bool → (Nat → Rat) → (Nat → Rat) → (Nat → Rat)) (tn : Int)
    (p0 T0 : Nat → Rat) (names1 : List String) (rows1 : List (List Rat))
    (outs1 outs2 : List (List Rat)) (n : Nat) (σ : Equiv (Fin n) (Fin n))
    (hn : totalUnits layers = n)
    (hglob : (powerUnits layers).Nodup)
    (hnd : names1.Nodup)
    (hlen1 : names1.length = n)
    (hrows : ∀ r ∈ rows1, r.length = n)
    (hrun1 : runLoop layers step tn names1 p0 T0 0 rows1 = .ok outs1)
    (hrun2 : runLoop layers step tn (permuteBy n σ "" names1) p0 T0 0
        (rows1.map (permuteBy n σ 0)) = .ok outs2) :
    outs2 = outs1.map (permuteBy n σ 0) := by
  cases rows1 with
  | nil =>
    simp only [List.map_nil] at hrun2
    unfold runLoop at hrun1 hrun2
    cases hrun1
    cases hrun2
    rfl
  | cons r rest =>
    have hlen2 : (permuteBy n σ "" names1).length = n := permuteBy_length n σ "" names1
    have hnd2names : (permuteBy n σ "" names1).Nodup :=
      ((permuteBy_perm n σ "" names1 hlen1).nodup_iff).mpr hnd
    obtain ⟨hL1, hM1⟩ := runLoop_ok layers step tn names1 p0 (r :: rest) T0 0 outs1 hrun1
    obtain ⟨hL2, hM2⟩ := runLoop_ok layers step tn (permuteBy n σ "" names1) p0 _ T0 0
      outs2 hrun2
    cases outs1 with
    | nil => simp at hL1
    | cons o1 outs1t =>
      cases outs2 with
      | nil => simp at hL2
      | cons o2 outs2t =>
        obtain ⟨Ta, hTa⟩ := hM1 o1 (by simp)
        obtain ⟨Tb, hTb⟩ := hM2 o2 (by simp)
        rw [permuteOut_eq_colSlots] at hTa hTb
        cases hsl1 : colSlots layers 0 names1 <;> rw [hsl1] at hTa
        · cases hTa
        · rename_i sl1
          cases hsl2 : colSlots layers 0 (permuteBy n σ "" names1) <;> rw [hsl2] at hTb
          · cases hTb
          · rename_i sl2
            have hsllen1 : sl1.length = n := by
              rw [colSlots_length layers 0 names1 sl1 (by omega) hsl1]
              omega
            have hsllen2 : sl2.length = n := by
              rw [colSlots_length layers 0 _ sl2 (by omega) hsl2]
              omega
            have hslperm : ∀ j : Fin n,
                sl2.get? (j : Nat) = sl1.get? ((σ j : Fin n) : Nat) := by
              intro j
              have hjn : (j : Nat) < totalUnits layers := by
                have := j.isLt
                omega
              have hσn : ((σ j : Fin n) : Nat) < totalUnits layers := by
                have := (σ j).isLt
                omega
              have hname2 : (permuteBy n σ "" names1).get? (j : Nat)
                  = some (names1.getD ((σ j : Fin n) : Nat) "") :=
                permuteBy_get? n σ "" names1 j
              have e2 := colSlots_lookup layers 0 _ sl2 hglob (by omega) hsl2 (j : Nat)
                (names1.getD ((σ j : Fin n) : Nat) "") hjn hname2
              have hname1 : names1.get? ((σ j : Fin n) : Nat)
                  = some (names1.getD ((σ j : Fin n) : Nat) "") := by
                have hlt : ((σ j : Fin n) : Nat) < names1.length := by
                  rw [hlen1]
                  exact (σ j).isLt
                rw [List.get?_eq_get hlt]
                congr 1
                rw [List.getD_eq_getElem?_getD, List.getElem?_eq_getElem hlt]
                rfl
              have e1 := colSlots_lookup layers 0 names1 sl1 hglob (by omega) hsl1
                ((σ j : Fin n) : Nat) (names1.getD ((σ j : Fin n) : Nat) "") hσn hname1
              rw [e1, e2]
            have hnd2 : sl2.Nodup :=
              colSlots_nodup layers 0 _ sl2 hglob hnd2names (by omega) hsl2
            exact runLoop_permuted layers step tn p0 names1 _ n σ sl1 sl2 hn hlen1 hlen2
              hsl1 hsl2 hsllen1 hsllen2 hslperm hnd2 (r :: rest) T0 0 _ _ hrows hrun1 hrun2

/-- Witness for C5: one power layer with units `a, b`, header `b, a`, one
power row, columns swapped by `σ = (0 1)`. -/
theorem hotspot_claim_c5_witness :
    totalUnits [⟨true, ["a", "b"]⟩] = 2
      ∧ (powerUnits [⟨true, ["a", "b"]⟩]).Nodup
      ∧ (["b", "a"] : List String).Nodup
      ∧ (["b", "a"] : List String).length = 2
      ∧ (∀ r ∈ ([[1, 2]] : List (List Rat)), r.length = 2)
      ∧ runLoop [⟨true, ["a", "b"]⟩] (fun _ p _ => p) (-1) ["b", "a"]
          (fun _ => 0) (fun _ => 0) 0 [[1, 2]] = .ok [[1, 2]]
      ∧ runLoop [⟨true, ["a", "b"]⟩] (fun _ p _ => p) (-1)
          (permuteBy 2 (Equiv.swap 0 1) "" ["b", "a"]) (fun _ => 0) (fun _ => 0) 0
          (([[1, 2]] : List (List Rat)).map (permuteBy 2 (Equiv.swap 0 1) 0)) = .ok [[2, 1]]
      ∧ ([[2, 1]] : List (List Rat))
          = ([[1, 2]] : List (List Rat)).map (permuteBy 2 (Equiv.swap 0 1) 0) :=
  ⟨by decide, by decide, by decide, by decide, by decide, rfl, rfl,
    hotspot_claim_c5 [⟨true, ["a", "b"]⟩] (fun _ p _ => p) (-1) (fun _ => 0) (fun _ => 0)
      ["b", "a"] [[1, 2]] [[1, 2]] [[2, 1]] 2 (Equiv.swap 0 1) (by decide) (by decide)
      (by decide) (by decide) (by decide) rfl rfl⟩
